import Mathlib

/-!
# nanomsg: WebSocket transport contract, endpoint base and Autobahn harness

A shallow embedding of

* `src/core/ep.c` (the endpoint base: `sp_epbase_init`, `sp_epbase_getaddr`,
  `sp_ep_close`, ...),
* the helpers of `tests/ws_stress.c` (`nn_ws_recv`, `nn_ws_check_result`,
  `nn_autobahn_disconnect`, the case-count loop of `main`),
* the parts of the WebSocket transport that `tests/ws.c` exercises and that
  are written down in the specification only (address parser, `NN_RCVMAXSIZE`,
  message reassembly); every definition modelled from the specification says
  so in its doc comment.

C strings are lists of bytes (`List Nat`) read up to the first NUL; address
strings of the transport are `List Char`.
-/

namespace Nanomsg

/-! ## Error numbers -/

/-- The error numbers the tests observe through `nn_errno ()`. -/
inductive Errno where
  | EINVAL
  | ENODEV
  | ETIMEDOUT
  | EBADF
  | EINTR
deriving DecidableEq, Repr

/-! ## Address parser (modelled from the specification, section 4.1) -/

/-- ASCII decimal digit. -/
def isDigit (c : Char) : Bool :=
  decide (48 ≤ c.toNat) && decide (c.toNat ≤ 57)

/-- ASCII letter. -/
def isLetter (c : Char) : Bool :=
  (decide (97 ≤ c.toNat) && decide (c.toNat ≤ 122)) ||
  (decide (65 ≤ c.toNat) && decide (c.toNat ≤ 90))

/-- Modelled from the spec: the hostname alphabet `[A-Za-z0-9-]` of section 4.1
(the hostname checker of the transport is not among the sources). -/
def isDnsChar (c : Char) : Bool :=
  isLetter c || isDigit c || c == '-'

/-- Value of a string of decimal digits, most significant digit first. -/
def digitsValue (p : List Char) : Nat :=
  p.foldl (fun acc c => 10 * acc + (c.toNat - 48)) 0

/-- Split at the first occurrence of `c`: the part before and the part after. -/
def splitFirst (c : Char) : List Char → Option (List Char × List Char)
  | [] => none
  | x :: xs =>
    if x = c then some ([], xs)
    else
      match splitFirst c xs with
      | some (a, b) => some (x :: a, b)
      | none => none

/-- Split at the last occurrence of `c`: the part before and the part after. -/
def splitLast (c : Char) : List Char → Option (List Char × List Char)
  | [] => none
  | x :: xs =>
    match splitLast c xs with
    | some (a, b) => some (x :: a, b)
    | none => if x = c then some ([], xs) else none

/-- The textual components of `[iface;]host[:port][/path]`, before validation. -/
structure AddrParts where
  iface : Option (List Char)
  host : List Char
  port : Option (List Char)
  resource : List Char
deriving DecidableEq, Repr

/-- Modelled from the spec: the shape `ws://[<iface>;]<host>[:<port>][/<path>]`
of section 4.1, applied to the text after `ws://`. The resource starts at the
first `/`; an interface prefix ends at the first `;`; the port is what follows
the last `:` of the remaining host-and-port text. -/
def splitAddr (rest : List Char) : AddrParts :=
  let authority := rest.takeWhile (fun c => c != '/')
  let resource := rest.dropWhile (fun c => c != '/')
  let ih : Option (List Char) × List Char :=
    match splitFirst ';' authority with
    | some (i, hp) => (some i, hp)
    | none => (none, authority)
  match splitLast ':' ih.2 with
  | some (h, p) => { iface := ih.1, host := h, port := some p, resource := resource }
  | none => { iface := ih.1, host := ih.2, port := none, resource := resource }

/-- Modelled from the spec: "empty port, port outside 1...65535, non-numeric
port → invalid-address" and "Missing port ⇒ 80" (section 4.1). `none` stands
for invalid-address. -/
def resolvePort : Option (List Char) → Option Nat
  | none => some 80
  | some p =>
    if p = [] then none
    else if p.all isDigit then
      (if 1 ≤ digitsValue p ∧ digitsValue p ≤ 65535 then some (digitsValue p) else none)
    else none

/-- The labels of a hostname: the maximal runs between dots. -/
def labels : List Char → List (List Char)
  | [] => [[]]
  | c :: cs =>
    if c = '.' then [] :: labels cs
    else
      match labels cs with
      | [] => [[c]]
      | l :: ls => (c :: l) :: ls

/-- Modelled from the spec: "Hostname labels: 1–63 chars, each `[A-Za-z0-9-]`,
not starting/ending with `-`" (section 4.1). -/
def isLabel (l : List Char) : Bool :=
  decide (1 ≤ l.length) && decide (l.length ≤ 63) && l.all isDnsChar &&
  !(l.head? == some '-') && !(l.getLast? == some '-')

/-- Modelled from the spec: a hostname is valid when every label between its
dots is a valid label. An empty label (leading dot, consecutive dots, and the
trailing dot of `abc.123.` that `tests/ws.c` requires to be rejected) is
therefore a violation. -/
def checkHostname (h : List Char) : Bool :=
  (labels h).all isLabel

/-- One component of a dotted IPv4 literal: one to three digits, at most 255. -/
def isOctet (l : List Char) : Bool :=
  decide (1 ≤ l.length) && decide (l.length ≤ 3) && l.all isDigit &&
  decide (digitsValue l ≤ 255)

/-- Modelled from the spec: "dotted IPv4 literal" (section 3, Address). -/
def isIPv4Literal (h : List Char) : Bool :=
  match labels h with
  | [a, b, c, d] => isOctet a && isOctet b && isOctet c && isOctet d
  | _ => false

/-- The validated structural record the parser produces. -/
structure WsAddress where
  iface : Option (List Char)
  host : List Char
  port : Nat
  resource : List Char
deriving DecidableEq, Repr

/-- The resource of the record: the path, `/` when the address has none. -/
def resourceOrRoot (r : List Char) : List Char :=
  if r = [] then ['/'] else r

/-- Modelled from the spec: the connect-side parser of section 4.1 for
`ws://<host>[:<port>][/<path>]` with the optional `iface;` prefix of section 3.
`ifaces` is the set of local network interfaces. The invalid-address rules are
unconditional in the spec, so they are checked before the interface lookup. -/
def parseConnect (ifaces : List (List Char)) (rest : List Char) : Except Errno WsAddress :=
  let p := splitAddr rest
  if p.host = [] then .error .EINVAL
  else if p.host.head? = some '-' then .error .EINVAL
  else
    match resolvePort p.port with
    | none => .error .EINVAL
    | some port =>
      if !(isIPv4Literal p.host || checkHostname p.host) then .error .EINVAL
      else
        match p.iface with
        | some i =>
          if i ∈ ifaces then
            .ok { iface := some i, host := p.host, port := port,
                  resource := resourceOrRoot p.resource }
          else .error .ENODEV
        | none =>
          .ok { iface := none, host := p.host, port := port,
                resource := resourceOrRoot p.resource }

/-- Modelled from the spec: the bind-side parser of section 4.1 for
`ws://[<iface>;]<ip-or-star>[:<port>]`. A host that is neither `*` nor a dotted
IPv4 literal names a local interface (`ws://eth10000:5555` is no-such-device in
`tests/ws.c`); the bind form has no resource path. -/
def parseBind (ifaces : List (List Char)) (rest : List Char) : Except Errno WsAddress :=
  let p := splitAddr rest
  if p.host = [] then .error .EINVAL
  else if p.host.head? = some '-' then .error .EINVAL
  else
    match resolvePort p.port with
    | none => .error .EINVAL
    | some port =>
      if p.resource ≠ [] then .error .EINVAL
      else if !(p.host = ['*'] || isIPv4Literal p.host || decide (p.host ∈ ifaces)) then
        .error .ENODEV
      else
        match p.iface with
        | some i =>
          if i ∈ ifaces then
            .ok { iface := some i, host := p.host, port := port, resource := ['/'] }
          else .error .ENODEV
        | none => .ok { iface := none, host := p.host, port := port, resource := ['/'] }

/-- The text after the scheme of a `ws://` address string. -/
def wsRest (addr : List Char) : Option (List Char) :=
  if ['w', 's', ':', '/', '/'].isPrefixOf addr then some (addr.drop 5) else none

/-! ## Socket-level calls (modelled from the specification, sections 4.7, 6, 7) -/

/-- An endpoint of a socket: its id, whether it was bound, and the parsed address. -/
structure Endpoint where
  eid : Nat
  bound : Bool
  address : WsAddress
deriving DecidableEq, Repr

/-- The part of a socket the WebSocket tests observe. -/
structure Socket where
  endpoints : List Endpoint
  nexteid : Nat
  rcvmaxsize : Int
deriving DecidableEq, Repr

/-- Outcome of a socket call: the `int` it returns, the error number it leaves
in `nn_errno ()` when it fails, and the socket afterwards. -/
structure CallResult where
  rc : Int
  errno : Option Errno
  sock : Socket
deriving DecidableEq, Repr

/-- Modelled from the spec: `create_endpoint(role, address, socket_handle) →
endpoint id` (section 4.7); misuse is reported synchronously (section 7) and
then nothing is created. -/
def createEndpoint (s : Socket) (bound : Bool) (r : Except Errno WsAddress) : CallResult :=
  match r with
  | .error e => { rc := -1, errno := some e, sock := s }
  | .ok a =>
    { rc := (s.nexteid : Int), errno := none,
      sock := { s with endpoints := s.endpoints ++ [{ eid := s.nexteid, bound := bound, address := a }],
                       nexteid := s.nexteid + 1 } }

/-- Modelled from the spec: `nn_connect` on a WebSocket address (the transport
is not among the sources). A string that is not of the form `ws://...` is not
an address of this transport and is classified invalid-address. -/
def nn_connect (ifaces : List (List Char)) (s : Socket) (addr : String) : CallResult :=
  match wsRest addr.toList with
  | none => { rc := -1, errno := some .EINVAL, sock := s }
  | some rest => createEndpoint s false (parseConnect ifaces rest)

/-- Modelled from the spec: `nn_bind` on a WebSocket address (the transport is
not among the sources). -/
def nn_bind (ifaces : List (List Char)) (s : Socket) (addr : String) : CallResult :=
  match wsRest addr.toList with
  | none => { rc := -1, errno := some .EINVAL, sock := s }
  | some rest => createEndpoint s true (parseBind ifaces rest)

/-- Modelled from the spec: setting `NN_RCVMAXSIZE` (the socket layer is not
among the sources): "accepts -1 (unlimited) and non-negative ints", "values
< -1 rejected at configuration time" with invalid-argument. -/
def nn_setsockopt_rcvmaxsize (s : Socket) (opt : Int) : CallResult :=
  if opt < -1 then { rc := -1, errno := some .EINVAL, sock := s }
  else { rc := 0, errno := none, sock := { s with rcvmaxsize := opt } }

/-! ## UTF-8 validation and message reassembly (modelled from the
specification, sections 3 and 4.5) -/

/-- Modelled from the spec: `MSG_TYPE` Text = 0x1 (section 4.7; the header
`ws.h` that defines it is not among the sources). -/
def NN_WS_MSG_TYPE_TEXT : Nat := 0x01

/-- Modelled from the spec: `MSG_TYPE` Binary = 0x2 (section 4.7; the header
`ws.h` that defines it is not among the sources). -/
def NN_WS_MSG_TYPE_BINARY : Nat := 0x02

/-- Close opcode (`#define NN_WS_OPCODE_CLOSE 0x08`). -/
def NN_WS_OPCODE_CLOSE : Nat := 0x08

/-- Ping opcode (`#define NN_WS_OPCODE_PING 0x09`). -/
def NN_WS_OPCODE_PING : Nat := 0x09

/-- Pong opcode (`#define NN_WS_OPCODE_PONG 0x0A`). -/
def NN_WS_OPCODE_PONG : Nat := 0x0A

/-- States of the incremental UTF-8 validator: between code points, or inside
one with the stated bytes still due. -/
inductive Utf8State where
  | start
  | cont1
  | cont2
  | cont3
  | afterE0
  | afterED
  | afterF0
  | afterF4
  | reject
deriving DecidableEq, Repr

/-- A UTF-8 continuation byte `80..BF`. -/
def isCont (b : Nat) : Bool := decide (0x80 ≤ b) && decide (b ≤ 0xBF)

/-- Modelled from the spec: one step of the incremental validation of section 3
("validated incrementally so a partial 4-byte codepoint at a fragment boundary is
tolerated only if the sequence, concatenated, is valid"), following the
well-formed byte sequences of RFC 3629. -/
def utf8Step (st : Utf8State) (b : Nat) : Utf8State :=
  match st with
  | .start =>
    if b ≤ 0x7F then .start
    else if 0xC2 ≤ b ∧ b ≤ 0xDF then .cont1
    else if b = 0xE0 then .afterE0
    else if b = 0xED then .afterED
    else if 0xE1 ≤ b ∧ b ≤ 0xEF then .cont2
    else if b = 0xF0 then .afterF0
    else if 0xF1 ≤ b ∧ b ≤ 0xF3 then .cont3
    else if b = 0xF4 then .afterF4
    else .reject
  | .cont1 => if isCont b then .start else .reject
  | .cont2 => if isCont b then .cont1 else .reject
  | .cont3 => if isCont b then .cont2 else .reject
  | .afterE0 => if 0xA0 ≤ b ∧ b ≤ 0xBF then .cont1 else .reject
  | .afterED => if 0x80 ≤ b ∧ b ≤ 0x9F then .cont1 else .reject
  | .afterF0 => if 0x90 ≤ b ∧ b ≤ 0xBF then .cont2 else .reject
  | .afterF4 => if 0x80 ≤ b ∧ b ≤ 0x8F then .cont2 else .reject
  | .reject => .reject

/-- Modelled from the spec: a byte sequence is valid UTF-8 when the validator
ends between code points. -/
def validUtf8 (bs : List Nat) : Bool :=
  decide (bs.foldl utf8Step .start = .start)

/-- Unicode scalar values: code points up to `10FFFF` outside the surrogate
range `D800..DFFF`. -/
def isScalar (cp : Nat) : Bool :=
  decide (cp < 0xD800) || (decide (0xE000 ≤ cp) && decide (cp < 0x110000))

/-- The UTF-8 encoding of a scalar value (RFC 3629, section 3): one to four
bytes, the shortest form. -/
def utf8Encode (cp : Nat) : List Nat :=
  if cp < 0x80 then [cp]
  else if cp < 0x800 then [0xC0 + cp / 64, 0x80 + cp % 64]
  else if cp < 0x10000 then [0xE0 + cp / 4096, 0x80 + cp / 64 % 64, 0x80 + cp % 64]
  else [0xF0 + cp / 262144, 0x80 + cp / 4096 % 64, 0x80 + cp / 64 % 64, 0x80 + cp % 64]

/-- The bytes are valid UTF-8: the encoding of a sequence of scalar values. -/
def IsUtf8 (bs : List Nat) : Prop :=
  ∃ cps : List Nat, (∀ cp ∈ cps, isScalar cp = true) ∧ bs = cps.flatMap utf8Encode

/-- A data or control frame as the frame codec emits it. -/
structure Frame where
  fin : Bool
  opcode : Nat
  payload : List Nat
deriving DecidableEq, Repr

/-- The reassembly state of section 4.5: the in-fragment flag, the opcode of the
first fragment and the accumulated bytes. -/
structure Reassembler where
  in_fragment : Bool
  opcode : Nat
  acc : List Nat
deriving DecidableEq, Repr

/-- What the reassembler does with one frame. -/
inductive StepResult where
  | more (st : Reassembler)
  | deliver (opcode : Nat) (bytes : List Nat)
  | fail (code : Nat)
deriving DecidableEq, Repr

/-- Modelled from the spec: the size cap of section 4.5, "-1 = unbounded; ≥0 =
cap in bytes". -/
def exceedsLimit (limit : Int) (n : Nat) : Bool :=
  decide (0 ≤ limit) && decide (limit < (n : Int))

/-- Modelled from the spec: the last two rules of section 4.5 once the frame is
known to belong to the message with opcode `op`: "If accumulated + new payload
would exceed the limit → fail with Close 1009", "On FIN=1: if opcode was Text,
validate full UTF-8; on failure Close 1007. On success, deliver". -/
def accumulate (limit : Int) (op : Nat) (acc : List Nat) (f : Frame) : StepResult :=
  if exceedsLimit limit (acc.length + f.payload.length) then .fail 1009
  else if f.fin then
    (if op = NN_WS_MSG_TYPE_TEXT ∧ validUtf8 (acc ++ f.payload) = false then .fail 1007
     else .deliver op (acc ++ f.payload))
  else .more { in_fragment := true, opcode := op, acc := acc ++ f.payload }

/-- Modelled from the spec: the message reassembler of section 4.5 on one
non-control frame (the transport is not among the sources). -/
def reassemble (limit : Int) (st : Reassembler) (f : Frame) : StepResult :=
  if f.opcode = 0 then
    (if st.in_fragment then accumulate limit st.opcode st.acc f else .fail 1002)
  else if f.opcode = NN_WS_MSG_TYPE_TEXT ∨ f.opcode = NN_WS_MSG_TYPE_BINARY then
    (if st.in_fragment then .fail 1002 else accumulate limit f.opcode [] f)
  else .fail 1002

/-- The receive side of an endpoint: reassembly state, messages delivered upward
(oldest first), Close status codes sent, and whether the data phase is over. -/
structure RecvState where
  re : Reassembler
  delivered : List (Nat × List Nat)
  closes : List Nat
  closing : Bool
deriving DecidableEq, Repr

/-- No message in progress. -/
def Reassembler.idle : Reassembler := { in_fragment := false, opcode := 0, acc := [] }

/-- A fresh endpoint in the data phase. -/
def RecvState.init : RecvState :=
  { re := Reassembler.idle, delivered := [], closes := [], closing := false }

/-- Modelled from the spec: the Active rows of the table of section 4.4 for one
received frame, as far as the receive side goes. Ping and Pong do not touch
reassembly; a failure sends one Close with the status code, discards the message
in progress and ends upward delivery. A Close from the peer ends the delivery of
data ("Once Close is received, upward delivery of any subsequent non-control
frames is forbidden") and is itself handed upward with its opcode and its body:
`nn_autobahn_disconnect` of `tests/ws_stress.c` receives it through `nn_ws_recv`
and asserts `ws_msg_type == NN_WS_OPCODE_CLOSE`. -/
def recvFrame (limit : Int) (st : RecvState) (f : Frame) : RecvState :=
  if st.closing then st
  else if f.opcode = NN_WS_OPCODE_PING ∨ f.opcode = NN_WS_OPCODE_PONG then st
  else if f.opcode = NN_WS_OPCODE_CLOSE then
    { st with delivered := st.delivered ++ [(NN_WS_OPCODE_CLOSE, f.payload)], closing := true }
  else
    match reassemble limit st.re f with
    | .more re => { st with re := re }
    | .deliver op bytes =>
      { st with re := Reassembler.idle, delivered := st.delivered ++ [(op, bytes)] }
    | .fail code =>
      { st with re := Reassembler.idle, closes := st.closes ++ [code], closing := true }

/-- The endpoint fed a sequence of frames. -/
def recvFrames (limit : Int) (st : RecvState) (fs : List Frame) : RecvState :=
  fs.foldl (recvFrame limit) st

/-- Continuation frames carrying the chunks `c, cs`, the last one with FIN. -/
def continuation (c : List Nat) : List (List Nat) → List Frame
  | [] => [{ fin := true, opcode := 0, payload := c }]
  | c' :: cs => { fin := false, opcode := 0, payload := c } :: continuation c' cs

/-- A message of opcode `op` on the wire (invariant of section 3): one frame, or
a first frame without FIN followed by continuation frames. -/
def fragment (op : Nat) (c : List Nat) : List (List Nat) → List Frame
  | [] => [{ fin := true, opcode := op, payload := c }]
  | c' :: cs => { fin := false, opcode := op, payload := c } :: continuation c' cs

/-- Modelled from the spec: `recv` with a receive timeout: the oldest delivered
message, or timeout when nothing was delivered. -/
def nn_recv (st : RecvState) : Except Errno (Nat × List Nat) × RecvState :=
  match st.delivered with
  | [] => (.error .ETIMEDOUT, st)
  | m :: ms => (.ok m, { st with delivered := ms })

/-! ## `tests/ws_stress.c`: receiving with the opcode, checking Autobahn verdicts -/

/-- One ancillary header of a received message: level, type and the first data
byte (`*(uint8_t *) NN_CMSG_DATA (cmsg)`). -/
structure nn_cmsghdr where
  cmsg_level : Int
  cmsg_type : Int
  data : Nat
deriving DecidableEq, Repr

/-- The test `cmsg->cmsg_level == NN_WS && cmsg->cmsg_type == NN_WS_MSG_TYPE`.
The two constants come from `ws.h` and are parameters. -/
def isMsgTypeHdr (NN_WS NN_WS_MSG_TYPE : Int) (c : nn_cmsghdr) : Bool :=
  decide (c.cmsg_level = NN_WS) && decide (c.cmsg_type = NN_WS_MSG_TYPE)

/-- The `while (cmsg)` loop of `nn_ws_recv`: the first header, in the order of
`NN_CMSG_FIRSTHDR` / `NN_CMSG_NXTHDR`, that passes the test. -/
def findMsgTypeHdr (NN_WS NN_WS_MSG_TYPE : Int) (hdrs : List nn_cmsghdr) : Option nn_cmsghdr :=
  hdrs.find? (isMsgTypeHdr NN_WS NN_WS_MSG_TYPE)

/-- The bytes of a string constant, without the terminating NUL. -/
def bytesOf (s : String) : List Nat := s.toList.map Char.toNat

/-- C `strncmp` on byte strings: reading past the end of a list reads the
terminating NUL. The sign of the result is that of the first differing pair. -/
def strncmp : List Nat → List Nat → Nat → Int
  | _, _, 0 => 0
  | s1, s2, n + 1 =>
    if s1.headD 0 ≠ s2.headD 0 then (s1.headD 0 : Int) - (s2.headD 0 : Int)
    else if s1.headD 0 = 0 then 0
    else strncmp s1.tail s2.tail n

/-- Autobahn response `OK`. -/
def OK : List Nat := bytesOf "\x7b\"behavior\": \"OK\"\x7d"

/-- Autobahn response `NON-STRICT`. -/
def NON : List Nat := bytesOf "\x7b\"behavior\": \"NON-STRICT\"\x7d"

/-- Autobahn response `INFORMATIONAL`. -/
def INFO : List Nat := bytesOf "\x7b\"behavior\": \"INFORMATIONAL\"\x7d"

/-- Autobahn response `UNIMPLEMENTED`. -/
def UNIMP : List Nat := bytesOf "\x7b\"behavior\": \"UNIMPLEMENTED\"\x7d"

/-- Autobahn response `FAILED`. -/
def FAILED : List Nat := bytesOf "\x7b\"behavior\": \"FAILED\"\x7d"

/-- `nn_ws_check_result` of `tests/ws_stress.c`; a C condition `if (strncmp (...))`
holds when the result is nonzero. `none` is `nn_assert (0)`. -/
def nn_ws_check_result (_case_num : Int) (result : List Nat) (len : Nat) : Option Int :=
  if strncmp result OK len ≠ 0 then some 0
  else if strncmp result NON len ≠ 0 then some 0
  else if strncmp result INFO len ≠ 0 then some 0
  else if strncmp result UNIMP len ≠ 0 then some (-1)
  else if strncmp result FAILED len ≠ 0 then some (-1)
  else none

/-- The `switch (nn_ws_check_result (...))` of `main`: the counters
`(passes, failures)` after one case, `none` when an assertion fails. -/
def tally (counters : Nat × Nat) (verdict : Option Int) : Option (Nat × Nat) :=
  match verdict with
  | none => none
  | some v =>
    if v = 0 then some (counters.1 + 1, counters.2)
    else if v = -1 then some (counters.1, counters.2 + 1)
    else none

/-! ## `src/core/ep.c`: the endpoint base -/

/-- The string a `char *` denotes: the bytes before the first NUL. -/
def cstr (s : List Nat) : List Nat := s.takeWhile (fun b => b != 0)

/-- C `strlen`. -/
def strlen (s : List Nat) : Nat := (cstr s).length

/-- C `strcpy (dst, src)`: the characters of `src` and the terminating NUL are
written at the start of `dst`; the bytes of `dst` after them are kept. -/
def strcpy (dst src : List Nat) : List Nat :=
  cstr src ++ 0 :: dst.drop (strlen src + 1)

/-- `struct sp_epbase`: pointer to the virtual functions table, pointer to the
owning socket, and the array `char addr [SP_SOCKADDR_MAX + 1]`. -/
structure sp_epbase where
  vfptr : Nat
  sock : Nat
  addr : List Nat
deriving DecidableEq, Repr

/-- `struct sp_epbase_vfptr`: the transport's `close`. It receives the endpoint
by pointer, so it yields the endpoint as it leaves it, next to its `int` and the
rest of the program state `W`. -/
structure sp_epbase_vfptr (W : Type) where
  close : sp_epbase → Int → W → Int × sp_epbase × W

/-- `sp_epbase_init`. `none` when `sp_assert (strlen (addr) <= SP_SOCKADDR_MAX)`
fails. `SP_SOCKADDR_MAX` comes from a header and is a parameter. -/
def sp_epbase_init (SP_SOCKADDR_MAX : Nat) (self : sp_epbase) (vfptr : Nat) (addr : List Nat)
    (hint : Nat) : Option sp_epbase :=
  let self1 := { self with vfptr := vfptr }
  let self2 := { self1 with sock := hint }
  if strlen addr ≤ SP_SOCKADDR_MAX then some { self2 with addr := strcpy self2.addr addr }
  else none

/-- `sp_epbase_term`: the body is empty. -/
def sp_epbase_term (self : sp_epbase) : sp_epbase := self

/-- `sp_epbase_getcp`: `sp_sock_getcp (self->sock)`; the endpoint is only read. -/
def sp_epbase_getcp (sp_sock_getcp : Nat → Nat) (self : sp_epbase) : Nat × sp_epbase :=
  (sp_sock_getcp self.sock, self)

/-- `sp_epbase_getaddr`: the array `self->addr`. -/
def sp_epbase_getaddr (self : sp_epbase) : List Nat := self.addr

/-- `sp_ep_fd`: `sp_sock_fd` of the owning socket; the endpoint is only read. -/
def sp_ep_fd (sp_sock_fd : Nat → Int) (self : sp_epbase) : Int × sp_epbase :=
  (sp_sock_fd self.sock, self)

/-- `sp_ep_close`: `epbase->vfptr->close (epbase, linger)`. `tables` resolves the
table pointer. -/
def sp_ep_close {W : Type} (tables : Nat → sp_epbase_vfptr W) (self : sp_epbase) (linger : Int)
    (w : W) : Int × sp_epbase × W :=
  (tables self.vfptr).close self linger w

/-- A transport whose `close` returns `rc`, leaves the endpoint alone and
records each call with its arguments. -/
def recordingClose (rc : Int) : sp_epbase_vfptr (List (sp_epbase × Int)) :=
  { close := fun self linger calls => (rc, self, calls ++ [(self, linger)]) }

/-- A transport whose `close` clears the stored address before returning. -/
def clearingClose : sp_epbase_vfptr Unit :=
  { close := fun self _ w => (0, { self with addr := self.addr.map (fun _ => 0) }, w) }

/-! ## `tests/ws_stress.c`: branches of the verdict check, the case count, the
case loop -/

/-- The common start `{"behavior": "` of the five Autobahn responses. -/
def behaviorPrefix : List Nat := bytesOf "\x7b\"behavior\": \""

/-- The branch of the `if ... else if` chain of `nn_ws_check_result` that is
taken: 1 to 5 for the comparisons with `OK`, `NON`, `INFO`, `UNIMP`, `FAILED` in
this order, 0 for the final `else` with `nn_assert (0)`. -/
def checkBranch (result : List Nat) (len : Nat) : Nat :=
  if strncmp result OK len ≠ 0 then 1
  else if strncmp result NON len ≠ 0 then 2
  else if strncmp result INFO len ≠ 0 then 3
  else if strncmp result UNIMP len ≠ 0 then 4
  else if strncmp result FAILED len ≠ 0 then 5
  else 0

/-- What each branch of `nn_ws_check_result` leaves in `rc` and returns; `none`
for the branch with `nn_assert (0)`. -/
def branchValue (branch : Nat) : Option Int :=
  if branch = 1 ∨ branch = 2 ∨ branch = 3 then some 0
  else if branch = 4 ∨ branch = 5 then some (-1)
  else none

/-- A C `int` after an arithmetic step: the value wrapped to 32 bits, two's
complement. -/
def wrapInt (x : Int) : Int := (x + 2147483648) % 4294967296 - 2147483648

/-- The loop `for (i = 0; i < rc; ++i)` of `main` that parses the case count,
with `k` iterations left, the index `i` and the value of `cases`. Reading past
the end of `recv_buf` reads 0. `none` when the `nn_assert` in the body fails. -/
def caseCountLoop (recv_buf : List Nat) : Nat → Nat → Int → Option Int
  | 0, _, cases => some cases
  | k + 1, i, cases =>
    if 48 ≤ recv_buf.getD i 0 ∧ recv_buf.getD i 0 ≤ 57 then
      caseCountLoop recv_buf k (i + 1)
        (wrapInt (wrapInt (cases * 10) + ((recv_buf.getD i 0 : Int) - 48)))
    else none

/-- The case count of `main`, from what `nn_ws_recv` returned (`rc`, the message
type, the buffer): `errno_assert (1 <= rc && rc <= 4)`, `nn_assert (ws_msg_type
== NN_WS_MSG_TYPE_TEXT)`, `cases = 0` and the loop. `none` when an assertion
fails. -/
def mainCaseCount (rc : Int) (ws_msg_type : Nat) (recv_buf : List Nat) : Option Int :=
  if 1 ≤ rc ∧ rc ≤ 4 then
    (if ws_msg_type = NN_WS_MSG_TYPE_TEXT then caseCountLoop recv_buf rc.toNat 0 0 else none)
  else none

/-- The digits of a buffer of ASCII digits, least significant first. -/
def digitsOf (recv_buf : List Nat) : List Nat := (recv_buf.map (fun b => b - 48)).reverse

/-- What `main` observes in one turn of its case loop: the outcome of
`nn_ws_recv` (`none` when one of its assertions fails, otherwise the returned
`rc` and the message type stored), the buffer received, the value returned by
`nn_freemsg`, and whether `nn_autobahn_disconnect` returned (none of its
assertions failed). -/
structure CaseRun where
  recv : Option (Int × Nat)
  recv_buf : List Nat
  freemsg : Int
  disconnect : Bool
deriving DecidableEq, Repr

/-- The loop `for (i = 1; i <= cases; i++)` of `main`: `runs` are the cases still
to run, `i` is the case number and `counters` are `(passes, failures)`. One turn
is `nn_ws_recv`, `errno_assert (rc > 0)`, `nn_assert (ws_msg_type ==
NN_WS_MSG_TYPE_TEXT)`, the `switch (nn_ws_check_result (i, recv_buf, rc))`,
`nn_freemsg` with `errno_assert (rc == 0)`, and `nn_autobahn_disconnect`. `none`
when an assertion fails. The helpers of `testutil.h` (`test_socket`,
`test_connect`, `test_close`) and the start and stop of the agent thread are
taken to return. -/
def runCases : List CaseRun → Int → Nat × Nat → Option (Nat × Nat)
  | [], _, counters => some counters
  | c :: runs, i, counters =>
    match c.recv with
    | none => none
    | some (rc, ws_msg_type) =>
      if ¬ (0 < rc) then none
      else if ws_msg_type ≠ NN_WS_MSG_TYPE_TEXT then none
      else
        match tally counters (nn_ws_check_result i c.recv_buf rc.toNat) with
        | none => none
        | some counters' =>
          if c.freemsg ≠ 0 then none
          else if c.disconnect = false then none
          else runCases runs (i + 1) counters'

/-! ## `src/core/ep.c`: `sp_epbase_init` with the state at a failed assertion -/

/-- `sp_epbase_init`, keeping the endpoint as it is when the function stops:
`.ok` is the endpoint on return, `.error` the endpoint at the moment
`sp_assert (strlen (addr) <= SP_SOCKADDR_MAX)` fails. -/
def sp_epbase_init_run (SP_SOCKADDR_MAX : Nat) (self : sp_epbase) (vfptr : Nat)
    (addr : List Nat) (hint : Nat) : Except sp_epbase sp_epbase :=
  let self1 := { self with vfptr := vfptr }
  let self2 := { self1 with sock := hint }
  if strlen addr ≤ SP_SOCKADDR_MAX then .ok { self2 with addr := strcpy self2.addr addr }
  else .error self2

/-! ## Predicates used to state the properties -/

/-- A socket with no endpoints and the default receive limit of 1 MiB. -/
def Socket.fresh : Socket := { endpoints := [], nexteid := 0, rcvmaxsize := 1048576 }

/-- The host or the port of an address breaks a rule of section 4.1: the host is
empty or starts with `-`, or there is a port after `:` that is empty, is not
all digits, or is a number outside 1...65535. -/
def BadHostOrPort (p : AddrParts) : Prop :=
  p.host = [] ∨ p.host.head? = some '-' ∨
  ∃ q, p.port = some q ∧
    (q = [] ∨ (∃ c ∈ q, isDigit c = false) ∨ digitsValue q < 1 ∨ 65535 < digitsValue q)

/-- The address text with the components `p`: `[iface;]host[:port][/path]`. -/
def buildAddr (p : AddrParts) : List Char :=
  (match p.iface with
    | some i => i ++ [';']
    | none => []) ++ p.host ++
  (match p.port with
    | some q => ':' :: q
    | none => []) ++ p.resource

/-- The components do not contain the delimiters that end them: no `/` before
the resource, which is empty or starts with `/`; no `;` in the interface, or
anywhere before the resource when there is no interface prefix; no `:` in the
port, or in the host when there is no port. -/
def WellDelimited (p : AddrParts) : Prop :=
  (∀ i, p.iface = some i → '/' ∉ i ∧ ';' ∉ i) ∧
  (p.iface = none → ';' ∉ p.host ∧ ∀ q, p.port = some q → ';' ∉ q) ∧
  '/' ∉ p.host ∧
  (∀ q, p.port = some q → '/' ∉ q ∧ ':' ∉ q) ∧
  (p.port = none → ':' ∉ p.host) ∧
  (p.resource = [] ∨ p.resource.head? = some '/')

/-- A label breaks a rule of section 4.1: it is empty, longer than 63
characters, has a character outside `[A-Za-z0-9-]`, or starts or ends with `-`. -/
def BadLabel (l : List Char) : Prop :=
  l = [] ∨ 63 < l.length ∨ (∃ c ∈ l, isDnsChar c = false) ∨ l.head? = some '-' ∨
    l.getLast? = some '-'

/-- The ways a host text violates the hostname rules of section 4.1, on its
labels and on the text itself. -/
inductive HostnameViolation : List Char → Prop where
  | label (h l : List Char) : l ∈ labels h → BadLabel l → HostnameViolation h
  | consecutiveDots (a b : List Char) : HostnameViolation (a ++ '.' :: '.' :: b)
  | leadingDot (t : List Char) : HostnameViolation ('.' :: t)
  | trailingDot (t : List Char) : HostnameViolation (t ++ ['.'])
  | bracketed (t : List Char) : HostnameViolation ('[' :: (t ++ [']']))
  | badChar (a : List Char) (c : Char) (b : List Char) :
      c ≠ '.' → isDnsChar c = false → HostnameViolation (a ++ c :: b)
  | longRun (a l b : List Char) : '.' ∉ l → 63 < l.length → HostnameViolation (a ++ l ++ b)
  | hyphenAfterDot (a b : List Char) : HostnameViolation (a ++ '.' :: '-' :: b)
  | hyphenBeforeDot (a b : List Char) : HostnameViolation (a ++ '-' :: '.' :: b)
  | leadingHyphen (t : List Char) : HostnameViolation ('-' :: t)
  | trailingHyphen (t : List Char) : HostnameViolation (t ++ ['-'])

/-- Ping and Pong frames, which may travel between the fragments of a message. -/
def isPingPong (f : Frame) : Bool :=
  decide (f.opcode = NN_WS_OPCODE_PING) || decide (f.opcode = NN_WS_OPCODE_PONG)

/-- The frames `fs` carry the message `op`, `c ++ cs.flatten`, cut into the chunks
`c, cs`, possibly with Ping and Pong frames in between. -/
def Carries (fs : List Frame) (op : Nat) (c : List Nat) (cs : List (List Nat)) : Prop :=
  fs.filter (fun f => !isPingPong f) = fragment op c cs

/-- The receive side after a whole message `op`, `payload` arrived in state
`st`: too big, Close 1009; Text that is not UTF-8, Close 1007; else delivered. -/
def afterMessage (limit : Int) (st : RecvState) (op : Nat) (payload : List Nat) : RecvState :=
  if exceedsLimit limit payload.length then
    { st with re := Reassembler.idle, closes := st.closes ++ [1009], closing := true }
  else if op = NN_WS_MSG_TYPE_TEXT ∧ validUtf8 payload = false then
    { st with re := Reassembler.idle, closes := st.closes ++ [1007], closing := true }
  else { st with re := Reassembler.idle, delivered := st.delivered ++ [(op, payload)] }

/-- The components of a connect address are valid apart from the port: the host
is a dotted IPv4 literal or a valid hostname, and a named interface exists. -/
def ValidConnect (ifaces : List (List Char)) (p : AddrParts) : Prop :=
  (isIPv4Literal p.host = true ∨ checkHostname p.host = true) ∧
  ∀ i, p.iface = some i → i ∈ ifaces

/-- The components of a bind address are valid apart from the port: the host is
`*`, a dotted IPv4 literal or an existing interface (not empty, no leading `-`),
there is no resource, and a named interface exists. -/
def ValidBind (ifaces : List (List Char)) (p : AddrParts) : Prop :=
  (p.host = ['*'] ∨ isIPv4Literal p.host = true ∨
    (p.host ∈ ifaces ∧ p.host ≠ [] ∧ p.host.head? ≠ some '-')) ∧
  p.resource = [] ∧ ∀ i, p.iface = some i → i ∈ ifaces

/-! # Properties -/

/-! ## Address parser: invalid host or port -/

theorem resolvePort_bad (q : List Char)
    (h : q = [] ∨ (∃ c ∈ q, isDigit c = false) ∨ digitsValue q < 1 ∨ 65535 < digitsValue q) :
    resolvePort (some q) = none := by
  unfold resolvePort
  rcases h with h | ⟨c, hc, hd⟩ | h | h
  · simp [h]
  · have hall : q.all isDigit = false := by
      rw [List.all_eq_false]
      exact ⟨c, hc, by simp [hd]⟩
    simp [hall]
  · have hr : ¬ (1 ≤ digitsValue q ∧ digitsValue q ≤ 65535) := by omega
    simp only [hr, if_false]
    split_ifs <;> rfl
  · have hr : ¬ (1 ≤ digitsValue q ∧ digitsValue q ≤ 65535) := by omega
    simp only [hr, if_false]
    split_ifs <;> rfl

theorem parseConnect_bad (ifaces : List (List Char)) (rest : List Char)
    (h : BadHostOrPort (splitAddr rest)) : parseConnect ifaces rest = .error .EINVAL := by
  unfold parseConnect
  rcases h with h | h | ⟨q, hq, hbad⟩
  · simp [h]
  · simp [h]
  · simp only [hq, resolvePort_bad q hbad]
    split_ifs <;> rfl

theorem parseBind_bad (ifaces : List (List Char)) (rest : List Char)
    (h : BadHostOrPort (splitAddr rest)) : parseBind ifaces rest = .error .EINVAL := by
  unfold parseBind
  rcases h with h | h | ⟨q, hq, hbad⟩
  · simp [h]
  · simp [h]
  · simp only [hq, resolvePort_bad q hbad]
    split_ifs <;> rfl

/-- C1: for every `ws://` address whose host is empty or starts with `-`, or
whose port after `:` is empty, non-numeric or outside 1...65535, both
`nn_connect` and `nn_bind` return a negative value with `EINVAL` and leave the
socket, hence its endpoints, as it was. -/
theorem ws_bad_host_or_port_einval (ifaces : List (List Char)) (s : Socket) (addr : String)
    (rest : List Char) (hws : wsRest addr.toList = some rest)
    (hbad : BadHostOrPort (splitAddr rest)) :
    ((nn_connect ifaces s addr).rc < 0 ∧ (nn_connect ifaces s addr).errno = some .EINVAL ∧
      (nn_connect ifaces s addr).sock = s) ∧
    ((nn_bind ifaces s addr).rc < 0 ∧ (nn_bind ifaces s addr).errno = some .EINVAL ∧
      (nn_bind ifaces s addr).sock = s) := by
  unfold nn_connect nn_bind
  simp only [hws, parseConnect_bad ifaces rest hbad, parseBind_bad ifaces rest hbad,
    createEndpoint]
  decide

/-- Witnesses of C1: the seven addresses of `tests/ws.c`, lines 115-143. -/
theorem ws_bad_host_or_port_einval_witness :
    ((nn_connect [] Socket.fresh "ws://*:").rc < 0 ∧
      (nn_connect [] Socket.fresh "ws://*:").errno = some .EINVAL ∧
      (nn_connect [] Socket.fresh "ws://*:").sock = Socket.fresh) ∧
    ((nn_connect [] Socket.fresh "ws://*:1000000").rc < 0 ∧
      (nn_connect [] Socket.fresh "ws://*:1000000").errno = some .EINVAL ∧
      (nn_connect [] Socket.fresh "ws://*:1000000").sock = Socket.fresh) ∧
    ((nn_connect [] Socket.fresh "ws://*:some_port").rc < 0 ∧
      (nn_connect [] Socket.fresh "ws://*:some_port").errno = some .EINVAL ∧
      (nn_connect [] Socket.fresh "ws://*:some_port").sock = Socket.fresh) ∧
    ((nn_connect [] Socket.fresh "ws://:5555").rc < 0 ∧
      (nn_connect [] Socket.fresh "ws://:5555").errno = some .EINVAL ∧
      (nn_connect [] Socket.fresh "ws://:5555").sock = Socket.fresh) ∧
    ((nn_connect [] Socket.fresh "ws://-hostname:5555").rc < 0 ∧
      (nn_connect [] Socket.fresh "ws://-hostname:5555").errno = some .EINVAL ∧
      (nn_connect [] Socket.fresh "ws://-hostname:5555").sock = Socket.fresh) ∧
    ((nn_bind [] Socket.fresh "ws://127.0.0.1:").rc < 0 ∧
      (nn_bind [] Socket.fresh "ws://127.0.0.1:").errno = some .EINVAL ∧
      (nn_bind [] Socket.fresh "ws://127.0.0.1:").sock = Socket.fresh) ∧
    ((nn_bind [] Socket.fresh "ws://127.0.0.1:1000000").rc < 0 ∧
      (nn_bind [] Socket.fresh "ws://127.0.0.1:1000000").errno = some .EINVAL ∧
      (nn_bind [] Socket.fresh "ws://127.0.0.1:1000000").sock = Socket.fresh) :=
  ⟨(ws_bad_host_or_port_einval [] Socket.fresh "ws://*:" "*:".toList (by decide)
      (Or.inr (Or.inr ⟨[], by decide, Or.inl rfl⟩))).1,
   (ws_bad_host_or_port_einval [] Socket.fresh "ws://*:1000000" "*:1000000".toList (by decide)
      (Or.inr (Or.inr ⟨"1000000".toList, by decide, Or.inr (Or.inr (Or.inr (by decide)))⟩))).1,
   (ws_bad_host_or_port_einval [] Socket.fresh "ws://*:some_port" "*:some_port".toList
      (by decide)
      (Or.inr (Or.inr ⟨"some_port".toList, by decide,
        Or.inr (Or.inl ⟨'s', by decide, by decide⟩)⟩))).1,
   (ws_bad_host_or_port_einval [] Socket.fresh "ws://:5555" ":5555".toList (by decide)
      (Or.inl (by decide))).1,
   (ws_bad_host_or_port_einval [] Socket.fresh "ws://-hostname:5555" "-hostname:5555".toList
      (by decide) (Or.inr (Or.inl (by decide)))).1,
   (ws_bad_host_or_port_einval [] Socket.fresh "ws://127.0.0.1:" "127.0.0.1:".toList
      (by decide) (Or.inr (Or.inr ⟨[], by decide, Or.inl rfl⟩))).2,
   (ws_bad_host_or_port_einval [] Socket.fresh "ws://127.0.0.1:1000000"
      "127.0.0.1:1000000".toList (by decide)
      (Or.inr (Or.inr ⟨"1000000".toList, by decide, Or.inr (Or.inr (Or.inr (by decide)))⟩))).2⟩

/-! ## The splitter inverts the address shape -/

theorem splitFirst_of_not_mem (c : Char) (l : List Char) (h : c ∉ l) : splitFirst c l = none := by
  induction l with
  | nil => rfl
  | cons x xs ih =>
    have hx : x ≠ c := fun e => h (by simp [e])
    have hxs : c ∉ xs := fun e => h (by simp [e])
    simp [splitFirst, hx, ih hxs]

theorem splitLast_of_not_mem (c : Char) (l : List Char) (h : c ∉ l) : splitLast c l = none := by
  induction l with
  | nil => rfl
  | cons x xs ih =>
    have hx : x ≠ c := fun e => h (by simp [e])
    have hxs : c ∉ xs := fun e => h (by simp [e])
    simp [splitLast, hx, ih hxs]

theorem splitFirst_append (c : Char) (a b : List Char) (h : c ∉ a) :
    splitFirst c (a ++ c :: b) = some (a, b) := by
  induction a with
  | nil => simp [splitFirst]
  | cons x xs ih =>
    have hx : x ≠ c := fun e => h (by simp [e])
    have hxs : c ∉ xs := fun e => h (by simp [e])
    simp [splitFirst, hx, ih hxs]

theorem splitLast_append (c : Char) (a b : List Char) (h : c ∉ b) :
    splitLast c (a ++ c :: b) = some (a, b) := by
  induction a with
  | nil => simp [splitLast, splitLast_of_not_mem c b h]
  | cons x xs ih => simp [splitLast, ih]

theorem takeWhile_authority (a r : List Char) (ha : '/' ∉ a)
    (hr : r = [] ∨ r.head? = some '/') :
    (a ++ r).takeWhile (fun c => c != '/') = a ∧ (a ++ r).dropWhile (fun c => c != '/') = r := by
  induction a with
  | nil =>
    rcases hr with hr | hr
    · simp [hr]
    · cases r with
      | nil => simp
      | cons x xs =>
        simp only [List.head?_cons, Option.some.injEq] at hr
        simp [hr]
  | cons x xs ih =>
    have hx : x ≠ '/' := fun e => ha (by simp [e])
    have hxs : '/' ∉ xs := fun e => ha (by simp [e])
    have := ih hxs
    have hb : (x != '/') = true := by simp [hx]
    simp [List.takeWhile, List.dropWhile, hb, this.1, this.2]

/-- The splitter recovers the components from which an address text is built. -/
theorem splitAddr_buildAddr (p : AddrParts) (h : WellDelimited p) :
    splitAddr (buildAddr p) = p := by
  obtain ⟨iface, host, port, resource⟩ := p
  obtain ⟨hi, hn, hh, hp, hpn, hr⟩ := h
  simp only at hi hn hh hp hpn hr
  have hauth : ∀ a : List Char, '/' ∉ a →
      (a ++ resource).takeWhile (fun c => c != '/') = a ∧
      (a ++ resource).dropWhile (fun c => c != '/') = resource :=
    fun a ha => takeWhile_authority a resource ha hr
  cases iface with
  | none =>
    have hsemi := hn rfl
    cases port with
    | none =>
      have hc := hpn rfl
      have h1 := hauth host hh
      simp only [splitAddr, buildAddr, List.nil_append, List.append_nil, h1.1, h1.2,
        splitFirst_of_not_mem ';' host hsemi.1, splitLast_of_not_mem ':' host hc]
    | some q =>
      have hq := hp q rfl
      have hsq := hsemi.2 q rfl
      have hs : '/' ∉ host ++ ':' :: q := by
        simp only [List.mem_append, List.mem_cons, not_or]
        exact ⟨hh, by decide, hq.1⟩
      have hs2 : ';' ∉ host ++ ':' :: q := by
        simp only [List.mem_append, List.mem_cons, not_or]
        exact ⟨hsemi.1, by decide, hsq⟩
      have h1 := hauth (host ++ ':' :: q) hs
      simp only [splitAddr, buildAddr, List.nil_append, h1.1, h1.2,
        splitFirst_of_not_mem ';' _ hs2, splitLast_append ':' host q hq.2]
  | some i =>
    have hii := hi i rfl
    cases port with
    | none =>
      have hc := hpn rfl
      have hs : '/' ∉ i ++ ';' :: host := by
        simp only [List.mem_append, List.mem_cons, not_or]
        exact ⟨hii.1, by decide, hh⟩
      have h1 := hauth (i ++ ';' :: host) hs
      have e : i ++ [';'] ++ host ++ [] ++ resource = (i ++ ';' :: host) ++ resource := by simp
      simp only [splitAddr, buildAddr, e, h1.1, h1.2, splitFirst_append ';' i host hii.2,
        splitLast_of_not_mem ':' host hc]
    | some q =>
      have hq := hp q rfl
      have hs : '/' ∉ i ++ ';' :: (host ++ ':' :: q) := by
        simp only [List.mem_append, List.mem_cons, not_or]
        exact ⟨hii.1, by decide, hh, by decide, hq.1⟩
      have h1 := hauth (i ++ ';' :: (host ++ ':' :: q)) hs
      have e : i ++ [';'] ++ host ++ ':' :: q ++ resource =
          (i ++ ';' :: (host ++ ':' :: q)) ++ resource := by simp
      simp only [splitAddr, buildAddr, e, h1.1, h1.2,
        splitFirst_append ';' i (host ++ ':' :: q) hii.2, splitLast_append ':' host q hq.2]

/-! ## Hostname rules -/

theorem labels_ne_nil (h : List Char) : labels h ≠ [] := by
  cases h with
  | nil => simp [labels]
  | cons c cs =>
    unfold labels
    split_ifs
    · simp
    · split <;> simp

theorem labels_cons_of_ne (c : Char) (cs : List Char) (hc : c ≠ '.') :
    ∃ l ls, labels cs = l :: ls ∧ labels (c :: cs) = (c :: l) :: ls := by
  cases hl : labels cs with
  | nil => exact absurd hl (labels_ne_nil cs)
  | cons l ls => exact ⟨l, ls, rfl, by simp [labels, hc, hl]⟩

theorem labels_dot_cons (cs : List Char) : labels ('.' :: cs) = [] :: labels cs := by
  simp [labels]

/-- Text put in front of `r` extends the first label of `r` to the left and
leaves the later labels of `r` as they are. -/
theorem labels_append (a r hd : List Char) (tl : List (List Char)) (hr : labels r = hd :: tl) :
    ∃ pre ls, labels (a ++ r) = ls ++ (pre ++ hd) :: tl := by
  induction a with
  | nil => exact ⟨[], [], by simpa using hr⟩
  | cons x xs ih =>
    obtain ⟨pre, ls, hls⟩ := ih
    by_cases hx : x = '.'
    · subst hx
      exact ⟨pre, [] :: ls, by simp [labels_dot_cons, hls]⟩
    · obtain ⟨l, ls', h1, h2⟩ := labels_cons_of_ne x (xs ++ r) hx
      rw [hls] at h1
      cases ls with
      | nil =>
        simp only [List.nil_append, List.cons.injEq] at h1
        refine ⟨x :: pre, [], ?_⟩
        simp only [List.cons_append, h2, List.nil_append, ← h1.1, ← h1.2]
      | cons l0 ls0 =>
        simp only [List.cons_append, List.cons.injEq] at h1
        refine ⟨pre, (x :: l0) :: ls0, ?_⟩
        simp only [List.cons_append, h2, ← h1.1, ← h1.2]

theorem labels_run (l b : List Char) (hl : '.' ∉ l) :
    ∃ hd tl, labels (l ++ b) = (l ++ hd) :: tl := by
  induction l with
  | nil =>
    cases hb : labels b with
    | nil => exact absurd hb (labels_ne_nil b)
    | cons hd tl => exact ⟨hd, tl, by simpa using hb⟩
  | cons x xs ih =>
    have hx : x ≠ '.' := fun e => hl (by simp [e])
    have hxs : '.' ∉ xs := fun e => hl (by simp [e])
    obtain ⟨hd, tl, h⟩ := ih hxs
    obtain ⟨l', ls', h1, h2⟩ := labels_cons_of_ne x (xs ++ b) hx
    rw [h] at h1
    simp only [List.cons.injEq] at h1
    exact ⟨hd, tl, by simp only [List.cons_append, h2, ← h1.1, ← h1.2]⟩

theorem isLabel_of_bad (l : List Char) (h : BadLabel l) : isLabel l = false := by
  unfold isLabel
  rcases h with h | h | ⟨c, hc, hd⟩ | h | h
  · simp [h]
  · have : ¬ l.length ≤ 63 := by omega
    simp [this]
  · have hall : l.all isDnsChar = false := by
      rw [List.all_eq_false]
      exact ⟨c, hc, by simp [hd]⟩
    simp [hall]
  · simp [h]
  · simp [h]

theorem checkHostname_of_bad_label (h l : List Char) (hl : l ∈ labels h) (hb : BadLabel l) :
    checkHostname h = false := by
  unfold checkHostname
  rw [List.all_eq_false]
  exact ⟨l, hl, by simp [isLabel_of_bad l hb]⟩

theorem checkHostname_of_violation (h : List Char) (hv : HostnameViolation h) :
    checkHostname h = false := by
  cases hv with
  | @label _ l hl hb => exact checkHostname_of_bad_label h l hl hb
  | consecutiveDots a b =>
    obtain ⟨pre, ls, e⟩ := labels_append a ('.' :: '.' :: b) [] ([] :: labels b)
      (by simp [labels_dot_cons])
    exact checkHostname_of_bad_label _ [] (by simp [e]) (Or.inl rfl)
  | leadingDot t =>
    exact checkHostname_of_bad_label _ [] (by simp [labels_dot_cons]) (Or.inl rfl)
  | trailingDot t =>
    obtain ⟨pre, ls, e⟩ := labels_append t ['.'] [] [[]] (by simp [labels])
    exact checkHostname_of_bad_label _ [] (by simp [e]) (Or.inl rfl)
  | bracketed t =>
    obtain ⟨l, ls, _, h2⟩ := labels_cons_of_ne '[' (t ++ [']']) (by decide)
    exact checkHostname_of_bad_label _ ('[' :: l) (by simp [h2])
      (Or.inr (Or.inr (Or.inl ⟨'[', by simp, by decide⟩)))
  | badChar a c b hc hd =>
    obtain ⟨l, ls, _, h2⟩ := labels_cons_of_ne c b hc
    obtain ⟨pre, ls', e⟩ := labels_append a (c :: b) (c :: l) ls h2
    exact checkHostname_of_bad_label _ (pre ++ c :: l) (by simp [e])
      (Or.inr (Or.inr (Or.inl ⟨c, by simp, hd⟩)))
  | longRun a l b hl hlen =>
    obtain ⟨hd, tl, h1⟩ := labels_run l b hl
    obtain ⟨pre, ls', e⟩ := labels_append a (l ++ b) (l ++ hd) tl h1
    refine checkHostname_of_bad_label _ (pre ++ (l ++ hd)) (by simp [e]) (Or.inr (Or.inl ?_))
    simp only [List.length_append]
    omega
  | hyphenAfterDot a b =>
    obtain ⟨l, ls, _, h2⟩ := labels_cons_of_ne '-' b (by decide)
    obtain ⟨pre, ls', e⟩ := labels_append a ('.' :: '-' :: b) [] (('-' :: l) :: ls)
      (by simp [labels_dot_cons, h2])
    exact checkHostname_of_bad_label _ ('-' :: l) (by simp [e])
      (Or.inr (Or.inr (Or.inr (Or.inl rfl))))
  | hyphenBeforeDot a b =>
    obtain ⟨pre, ls', e⟩ := labels_append a ('-' :: '.' :: b) ['-'] (labels b)
      (by simp [labels])
    exact checkHostname_of_bad_label _ (pre ++ ['-']) (by simp [e])
      (Or.inr (Or.inr (Or.inr (Or.inr (by simp)))))
  | leadingHyphen t =>
    obtain ⟨l, ls, _, h2⟩ := labels_cons_of_ne '-' t (by decide)
    exact checkHostname_of_bad_label _ ('-' :: l) (by simp [h2])
      (Or.inr (Or.inr (Or.inr (Or.inl rfl))))
  | trailingHyphen t =>
    obtain ⟨pre, ls', e⟩ := labels_append t ['-'] ['-'] [] (by simp [labels])
    exact checkHostname_of_bad_label _ (pre ++ ['-']) (by simp [e])
      (Or.inr (Or.inr (Or.inr (Or.inr (by simp)))))

theorem parseConnect_bad_hostname (ifaces : List (List Char)) (rest : List Char)
    (hip : isIPv4Literal (splitAddr rest).host = false)
    (hv : HostnameViolation (splitAddr rest).host) :
    parseConnect ifaces rest = .error .EINVAL := by
  have hc := checkHostname_of_violation _ hv
  unfold parseConnect
  simp only [hip, hc, Bool.or_false, Bool.not_false, if_true]
  split_ifs
  · rfl
  · rfl
  · split <;> rfl

/-- C2: for every `ws://` connect address whose host is not a dotted IPv4 literal
and violates the hostname rules (a label that is empty, longer than 63
characters, has a character outside `[A-Za-z0-9-]` or starts or ends with `-`;
consecutive dots; a leading dot; a trailing dot; a bracketed IPv6 literal),
`nn_connect` returns a negative value with `EINVAL` and leaves the socket as it
was. -/
theorem ws_connect_bad_hostname_einval (ifaces : List (List Char)) (s : Socket) (addr : String)
    (rest : List Char) (hws : wsRest addr.toList = some rest)
    (hip : isIPv4Literal (splitAddr rest).host = false)
    (hv : HostnameViolation (splitAddr rest).host) :
    (nn_connect ifaces s addr).rc < 0 ∧ (nn_connect ifaces s addr).errno = some .EINVAL ∧
      (nn_connect ifaces s addr).sock = s := by
  unfold nn_connect
  simp only [hws, parseConnect_bad_hostname ifaces rest hip hv, createEndpoint]
  decide

/-- Witnesses of C2: the five addresses of `tests/ws.c`, lines 144-158. -/
theorem ws_connect_bad_hostname_einval_witness :
    ((nn_connect [] Socket.fresh "ws://abc.123.---.#:5555").rc < 0 ∧
      (nn_connect [] Socket.fresh "ws://abc.123.---.#:5555").errno = some .EINVAL ∧
      (nn_connect [] Socket.fresh "ws://abc.123.---.#:5555").sock = Socket.fresh) ∧
    ((nn_connect [] Socket.fresh "ws://[::1]:5555").rc < 0 ∧
      (nn_connect [] Socket.fresh "ws://[::1]:5555").errno = some .EINVAL ∧
      (nn_connect [] Socket.fresh "ws://[::1]:5555").sock = Socket.fresh) ∧
    ((nn_connect [] Socket.fresh "ws://abc.123.:5555").rc < 0 ∧
      (nn_connect [] Socket.fresh "ws://abc.123.:5555").errno = some .EINVAL ∧
      (nn_connect [] Socket.fresh "ws://abc.123.:5555").sock = Socket.fresh) ∧
    ((nn_connect [] Socket.fresh "ws://abc...123:5555").rc < 0 ∧
      (nn_connect [] Socket.fresh "ws://abc...123:5555").errno = some .EINVAL ∧
      (nn_connect [] Socket.fresh "ws://abc...123:5555").sock = Socket.fresh) ∧
    ((nn_connect [] Socket.fresh "ws://.123:5555").rc < 0 ∧
      (nn_connect [] Socket.fresh "ws://.123:5555").errno = some .EINVAL ∧
      (nn_connect [] Socket.fresh "ws://.123:5555").sock = Socket.fresh) :=
  ⟨ws_connect_bad_hostname_einval [] Socket.fresh "ws://abc.123.---.#:5555"
      "abc.123.---.#:5555".toList (by decide) (by decide)
      (HostnameViolation.badChar "abc.123.---.".toList '#' [] (by decide) (by decide)),
   ws_connect_bad_hostname_einval [] Socket.fresh "ws://[::1]:5555" "[::1]:5555".toList
      (by decide) (by decide) (HostnameViolation.bracketed "::1".toList),
   ws_connect_bad_hostname_einval [] Socket.fresh "ws://abc.123.:5555" "abc.123.:5555".toList
      (by decide) (by decide) (HostnameViolation.trailingDot "abc.123".toList),
   ws_connect_bad_hostname_einval [] Socket.fresh "ws://abc...123:5555" "abc...123:5555".toList
      (by decide) (by decide) (HostnameViolation.consecutiveDots "abc".toList ".123".toList),
   ws_connect_bad_hostname_einval [] Socket.fresh "ws://.123:5555" ".123:5555".toList
      (by decide) (by decide) (HostnameViolation.leadingDot "123".toList)⟩

/-! ## The UTF-8 validator accepts exactly the encodings of scalar values -/

theorem utf8_reject (bs : List Nat) : bs.foldl utf8Step .reject = .reject := by
  induction bs with
  | nil => rfl
  | cons b bs ih => simpa [utf8Step] using ih

theorem utf8_cont1 (bs : List Nat) (h : bs.foldl utf8Step .cont1 = .start) :
    ∃ b rest, bs = b :: rest ∧ 0x80 ≤ b ∧ b ≤ 0xBF ∧ rest.foldl utf8Step .start = .start := by
  cases bs with
  | nil => simp at h
  | cons b rest =>
    simp only [List.foldl_cons, utf8Step, isCont, Bool.and_eq_true, decide_eq_true_eq] at h
    split_ifs at h with hb
    · exact ⟨b, rest, rfl, hb.1, hb.2, h⟩
    · rw [utf8_reject] at h
      exact absurd h (by decide)

theorem utf8_cont2 (bs : List Nat) (h : bs.foldl utf8Step .cont2 = .start) :
    ∃ b1 b2 rest, bs = b1 :: b2 :: rest ∧ (0x80 ≤ b1 ∧ b1 ≤ 0xBF) ∧ (0x80 ≤ b2 ∧ b2 ≤ 0xBF) ∧
      rest.foldl utf8Step .start = .start := by
  cases bs with
  | nil => simp at h
  | cons b rest =>
    simp only [List.foldl_cons, utf8Step, isCont, Bool.and_eq_true, decide_eq_true_eq] at h
    split_ifs at h with hb
    · obtain ⟨b2, rest', e, h1, h2, h3⟩ := utf8_cont1 rest h
      exact ⟨b, b2, rest', by rw [e], hb, ⟨h1, h2⟩, h3⟩
    · rw [utf8_reject] at h
      exact absurd h (by decide)

theorem utf8_cont3 (bs : List Nat) (h : bs.foldl utf8Step .cont3 = .start) :
    ∃ b1 b2 b3 rest, bs = b1 :: b2 :: b3 :: rest ∧ (0x80 ≤ b1 ∧ b1 ≤ 0xBF) ∧
      (0x80 ≤ b2 ∧ b2 ≤ 0xBF) ∧ (0x80 ≤ b3 ∧ b3 ≤ 0xBF) ∧
      rest.foldl utf8Step .start = .start := by
  cases bs with
  | nil => simp at h
  | cons b rest =>
    simp only [List.foldl_cons, utf8Step, isCont, Bool.and_eq_true, decide_eq_true_eq] at h
    split_ifs at h with hb
    · obtain ⟨b2, b3, rest', e, h1, h2, h3⟩ := utf8_cont2 rest h
      exact ⟨b, b2, b3, rest', by rw [e], hb, h1, h2, h3⟩
    · rw [utf8_reject] at h
      exact absurd h (by decide)

theorem utf8_after3 (st : Utf8State) (lo hi : Nat) (bs : List Nat) (hne : st ≠ .start)
    (hst : ∀ b, utf8Step st b = if lo ≤ b ∧ b ≤ hi then .cont1 else .reject)
    (h : bs.foldl utf8Step st = .start) :
    ∃ b1 b2 rest, bs = b1 :: b2 :: rest ∧ (lo ≤ b1 ∧ b1 ≤ hi) ∧ (0x80 ≤ b2 ∧ b2 ≤ 0xBF) ∧
      rest.foldl utf8Step .start = .start := by
  cases bs with
  | nil => exact absurd h hne
  | cons b rest =>
    simp only [List.foldl_cons, hst] at h
    split_ifs at h with hb
    · obtain ⟨b2, rest', e, h1, h2, h3⟩ := utf8_cont1 rest h
      exact ⟨b, b2, rest', by rw [e], hb, ⟨h1, h2⟩, h3⟩
    · rw [utf8_reject] at h
      exact absurd h (by decide)

theorem utf8_after4 (st : Utf8State) (lo hi : Nat) (bs : List Nat) (hne : st ≠ .start)
    (hst : ∀ b, utf8Step st b = if lo ≤ b ∧ b ≤ hi then .cont2 else .reject)
    (h : bs.foldl utf8Step st = .start) :
    ∃ b1 b2 b3 rest, bs = b1 :: b2 :: b3 :: rest ∧ (lo ≤ b1 ∧ b1 ≤ hi) ∧
      (0x80 ≤ b2 ∧ b2 ≤ 0xBF) ∧ (0x80 ≤ b3 ∧ b3 ≤ 0xBF) ∧
      rest.foldl utf8Step .start = .start := by
  cases bs with
  | nil => exact absurd h hne
  | cons b rest =>
    simp only [List.foldl_cons, hst] at h
    split_ifs at h with hb
    · obtain ⟨b2, b3, rest', e, h1, h2, h3⟩ := utf8_cont2 rest h
      exact ⟨b, b2, b3, rest', by rw [e], hb, h1, h2, h3⟩
    · rw [utf8_reject] at h
      exact absurd h (by decide)

theorem utf8Encode2 (b b1 : Nat) (hb : 0xC2 ≤ b ∧ b ≤ 0xDF) (h1 : 0x80 ≤ b1 ∧ b1 ≤ 0xBF) :
    utf8Encode ((b - 0xC0) * 64 + (b1 - 0x80)) = [b, b1] ∧
    isScalar ((b - 0xC0) * 64 + (b1 - 0x80)) = true := by
  have e1 : ¬ (b - 0xC0) * 64 + (b1 - 0x80) < 0x80 := by omega
  have e2 : (b - 0xC0) * 64 + (b1 - 0x80) < 0x800 := by omega
  have e3 : 0xC0 + ((b - 0xC0) * 64 + (b1 - 0x80)) / 64 = b := by omega
  have e4 : 0x80 + ((b - 0xC0) * 64 + (b1 - 0x80)) % 64 = b1 := by omega
  have e5 : (b - 0xC0) * 64 + (b1 - 0x80) < 0xD800 := by omega
  refine ⟨?_, ?_⟩
  · rw [utf8Encode, if_neg e1, if_pos e2, e3, e4]
  · simp [isScalar, e5]

theorem utf8Encode3 (b b1 b2 : Nat) (hb : 0xE0 ≤ b ∧ b ≤ 0xEF) (h1 : 0x80 ≤ b1 ∧ b1 ≤ 0xBF)
    (h2 : 0x80 ≤ b2 ∧ b2 ≤ 0xBF) (hE0 : b = 0xE0 → 0xA0 ≤ b1) (hED : b = 0xED → b1 ≤ 0x9F) :
    utf8Encode ((b - 0xE0) * 4096 + (b1 - 0x80) * 64 + (b2 - 0x80)) = [b, b1, b2] ∧
    isScalar ((b - 0xE0) * 4096 + (b1 - 0x80) * 64 + (b2 - 0x80)) = true := by
  have e1 : ¬ (b - 0xE0) * 4096 + (b1 - 0x80) * 64 + (b2 - 0x80) < 0x80 := by
    by_cases h : b = 0xE0
    · have := hE0 h
      omega
    · omega
  have e2 : ¬ (b - 0xE0) * 4096 + (b1 - 0x80) * 64 + (b2 - 0x80) < 0x800 := by
    by_cases h : b = 0xE0
    · have := hE0 h
      omega
    · omega
  have e3 : (b - 0xE0) * 4096 + (b1 - 0x80) * 64 + (b2 - 0x80) < 0x10000 := by omega
  have e4 : 0xE0 + ((b - 0xE0) * 4096 + (b1 - 0x80) * 64 + (b2 - 0x80)) / 4096 = b := by omega
  have e5 : 0x80 + ((b - 0xE0) * 4096 + (b1 - 0x80) * 64 + (b2 - 0x80)) / 64 % 64 = b1 := by
    omega
  have e6 : 0x80 + ((b - 0xE0) * 4096 + (b1 - 0x80) * 64 + (b2 - 0x80)) % 64 = b2 := by omega
  have e7 : (b - 0xE0) * 4096 + (b1 - 0x80) * 64 + (b2 - 0x80) < 0xD800 ∨
      0xE000 ≤ (b - 0xE0) * 4096 + (b1 - 0x80) * 64 + (b2 - 0x80) := by
    by_cases h : b = 0xED
    · have := hED h
      omega
    · omega
  refine ⟨?_, ?_⟩
  · rw [utf8Encode, if_neg e1, if_neg e2, if_pos e3, e4, e5, e6]
  · rcases e7 with h | h
    · simp [isScalar, h]
    · have : (b - 0xE0) * 4096 + (b1 - 0x80) * 64 + (b2 - 0x80) < 0x110000 := by omega
      simp [isScalar, h, this]

theorem utf8Encode4 (b b1 b2 b3 : Nat) (hb : 0xF0 ≤ b ∧ b ≤ 0xF4) (h1 : 0x80 ≤ b1 ∧ b1 ≤ 0xBF)
    (h2 : 0x80 ≤ b2 ∧ b2 ≤ 0xBF) (h3 : 0x80 ≤ b3 ∧ b3 ≤ 0xBF) (hF0 : b = 0xF0 → 0x90 ≤ b1)
    (hF4 : b = 0xF4 → b1 ≤ 0x8F) :
    utf8Encode ((b - 0xF0) * 262144 + (b1 - 0x80) * 4096 + (b2 - 0x80) * 64 + (b3 - 0x80)) =
      [b, b1, b2, b3] ∧
    isScalar ((b - 0xF0) * 262144 + (b1 - 0x80) * 4096 + (b2 - 0x80) * 64 + (b3 - 0x80)) =
      true := by
  have e0 : 0x10000 ≤ (b - 0xF0) * 262144 + (b1 - 0x80) * 4096 + (b2 - 0x80) * 64 + (b3 - 0x80) := by
    by_cases h : b = 0xF0
    · have := hF0 h
      omega
    · omega
  have e4 : 0xF0 + ((b - 0xF0) * 262144 + (b1 - 0x80) * 4096 + (b2 - 0x80) * 64 + (b3 - 0x80)) /
      262144 = b := by omega
  have e5 : 0x80 + ((b - 0xF0) * 262144 + (b1 - 0x80) * 4096 + (b2 - 0x80) * 64 + (b3 - 0x80)) /
      4096 % 64 = b1 := by omega
  have e6 : 0x80 + ((b - 0xF0) * 262144 + (b1 - 0x80) * 4096 + (b2 - 0x80) * 64 + (b3 - 0x80)) /
      64 % 64 = b2 := by omega
  have e7 : 0x80 + ((b - 0xF0) * 262144 + (b1 - 0x80) * 4096 + (b2 - 0x80) * 64 + (b3 - 0x80)) %
      64 = b3 := by omega
  have e8 : (b - 0xF0) * 262144 + (b1 - 0x80) * 4096 + (b2 - 0x80) * 64 + (b3 - 0x80) <
      0x110000 := by
    by_cases h : b = 0xF4
    · have := hF4 h
      omega
    · omega
  refine ⟨?_, ?_⟩
  · rw [utf8Encode, if_neg (by omega), if_neg (by omega), if_neg (by omega), e4, e5, e6, e7]
  · have : 0xE000 ≤ (b - 0xF0) * 262144 + (b1 - 0x80) * 4096 + (b2 - 0x80) * 64 + (b3 - 0x80) := by
      omega
    simp [isScalar, this, e8]

theorem IsUtf8.cons (cp : Nat) (bs rest : List Nat) (hcp : isScalar cp = true)
    (he : utf8Encode cp = bs) (h : IsUtf8 rest) : IsUtf8 (bs ++ rest) := by
  obtain ⟨cps, hs, e⟩ := h
  refine ⟨cp :: cps, ?_, ?_⟩
  · intro c hc
    rcases List.mem_cons.1 hc with h | h
    · rw [h]
      exact hcp
    · exact hs c h
  · simp [List.flatMap_cons, he, e]

theorem utf8_sound_aux (n : Nat) : ∀ bs : List Nat, bs.length ≤ n →
    bs.foldl utf8Step .start = .start → IsUtf8 bs := by
  induction n with
  | zero =>
    intro bs hlen _
    have : bs = [] := List.length_eq_zero.1 (by omega)
    subst this
    exact ⟨[], by simp, by simp⟩
  | succ n ih =>
    intro bs hlen h
    cases bs with
    | nil => exact ⟨[], by simp, by simp⟩
    | cons b rest =>
      simp only [List.length_cons] at hlen
      simp only [List.foldl_cons] at h
      by_cases c1 : b ≤ 0x7F
      · have hs : utf8Step .start b = .start := by simp [utf8Step, c1]
        rw [hs] at h
        have hr := ih rest (by omega) h
        have he : utf8Encode b = [b] := by
          rw [utf8Encode, if_pos (by omega)]
        have hsc : isScalar b = true := by
          have : b < 0xD800 := by omega
          simp [isScalar, this]
        exact IsUtf8.cons b [b] rest hsc he hr
      by_cases c2 : 0xC2 ≤ b ∧ b ≤ 0xDF
      · have hs : utf8Step .start b = .cont1 := by simp [utf8Step, c1, c2]
        rw [hs] at h
        obtain ⟨b1, rest', e, h1, h2, h3⟩ := utf8_cont1 rest h
        subst e
        simp only [List.length_cons] at hlen
        have hr := ih rest' (by omega) h3
        obtain ⟨he, hsc⟩ := utf8Encode2 b b1 c2 ⟨h1, h2⟩
        exact IsUtf8.cons _ [b, b1] rest' hsc he hr
      by_cases c3 : b = 0xE0
      · have hs : utf8Step .start b = .afterE0 := by simp [utf8Step, c3]
        rw [hs] at h
        obtain ⟨b1, b2, rest', e, h1, h2, h3⟩ :=
          utf8_after3 .afterE0 0xA0 0xBF rest (by decide) (fun _ => rfl) h
        subst e
        simp only [List.length_cons] at hlen
        have hr := ih rest' (by omega) h3
        obtain ⟨he, hsc⟩ := utf8Encode3 b b1 b2 (by omega) (by omega) h2 (fun _ => h1.1)
          (fun e => by omega)
        exact IsUtf8.cons _ [b, b1, b2] rest' hsc he hr
      by_cases c4 : b = 0xED
      · have hs : utf8Step .start b = .afterED := by simp [utf8Step, c4]
        rw [hs] at h
        obtain ⟨b1, b2, rest', e, h1, h2, h3⟩ :=
          utf8_after3 .afterED 0x80 0x9F rest (by decide) (fun _ => rfl) h
        subst e
        simp only [List.length_cons] at hlen
        have hr := ih rest' (by omega) h3
        obtain ⟨he, hsc⟩ := utf8Encode3 b b1 b2 (by omega) (by omega) h2 (fun e => by omega)
          (fun _ => h1.2)
        exact IsUtf8.cons _ [b, b1, b2] rest' hsc he hr
      by_cases c5 : 0xE1 ≤ b ∧ b ≤ 0xEF
      · have hs : utf8Step .start b = .cont2 := by simp [utf8Step, c1, c2, c3, c4, c5]
        rw [hs] at h
        obtain ⟨b1, b2, rest', e, h1, h2, h3⟩ := utf8_cont2 rest h
        subst e
        simp only [List.length_cons] at hlen
        have hr := ih rest' (by omega) h3
        obtain ⟨he, hsc⟩ := utf8Encode3 b b1 b2 (by omega) h1 h2 (fun e => by omega)
          (fun e => absurd e c4)
        exact IsUtf8.cons _ [b, b1, b2] rest' hsc he hr
      by_cases c6 : b = 0xF0
      · have hs : utf8Step .start b = .afterF0 := by simp [utf8Step, c6]
        rw [hs] at h
        obtain ⟨b1, b2, b3, rest', e, h1, h2, h3, h4⟩ :=
          utf8_after4 .afterF0 0x90 0xBF rest (by decide) (fun _ => rfl) h
        subst e
        simp only [List.length_cons] at hlen
        have hr := ih rest' (by omega) h4
        obtain ⟨he, hsc⟩ := utf8Encode4 b b1 b2 b3 (by omega) (by omega) h2 h3 (fun _ => h1.1)
          (fun e => by omega)
        exact IsUtf8.cons _ [b, b1, b2, b3] rest' hsc he hr
      by_cases c7 : 0xF1 ≤ b ∧ b ≤ 0xF3
      · have hs : utf8Step .start b = .cont3 := by simp [utf8Step, c1, c2, c3, c4, c5, c6, c7]
        rw [hs] at h
        obtain ⟨b1, b2, b3, rest', e, h1, h2, h3, h4⟩ := utf8_cont3 rest h
        subst e
        simp only [List.length_cons] at hlen
        have hr := ih rest' (by omega) h4
        obtain ⟨he, hsc⟩ := utf8Encode4 b b1 b2 b3 (by omega) h1 h2 h3 (fun e => by omega)
          (fun e => by omega)
        exact IsUtf8.cons _ [b, b1, b2, b3] rest' hsc he hr
      by_cases c8 : b = 0xF4
      · have hs : utf8Step .start b = .afterF4 := by simp [utf8Step, c8]
        rw [hs] at h
        obtain ⟨b1, b2, b3, rest', e, h1, h2, h3, h4⟩ :=
          utf8_after4 .afterF4 0x80 0x8F rest (by decide) (fun _ => rfl) h
        subst e
        simp only [List.length_cons] at hlen
        have hr := ih rest' (by omega) h4
        obtain ⟨he, hsc⟩ := utf8Encode4 b b1 b2 b3 (by omega) (by omega) h2 h3
          (fun e => by omega) (fun _ => h1.2)
        exact IsUtf8.cons _ [b, b1, b2, b3] rest' hsc he hr
      · have hs : utf8Step .start b = .reject := by
          simp [utf8Step, c1, c2, c3, c4, c5, c6, c7, c8]
        rw [hs, utf8_reject] at h
        exact absurd h (by decide)

theorem utf8Step_cont (b : Nat) (h : 0x80 ≤ b ∧ b ≤ 0xBF) :
    utf8Step .cont1 b = .start ∧ utf8Step .cont2 b = .cont1 ∧ utf8Step .cont3 b = .cont2 := by
  simp [utf8Step, isCont, h]

theorem utf8Step_lead2 (b : Nat) (h : 0xC2 ≤ b ∧ b ≤ 0xDF) : utf8Step .start b = .cont1 := by
  have h1 : ¬ b ≤ 0x7F := by omega
  simp [utf8Step, h1, h]

theorem utf8Step_lead3 (b : Nat) (h : 0xE1 ≤ b ∧ b ≤ 0xEF) (hne : b ≠ 0xED) :
    utf8Step .start b = .cont2 := by
  have h1 : ¬ b ≤ 0x7F := by omega
  have h2 : ¬ (0xC2 ≤ b ∧ b ≤ 0xDF) := by omega
  have h3 : b ≠ 0xE0 := by omega
  simp [utf8Step, h1, h2, h3, hne, h]

theorem utf8Step_lead4 (b : Nat) (h : 0xF1 ≤ b ∧ b ≤ 0xF3) : utf8Step .start b = .cont3 := by
  have h1 : ¬ b ≤ 0x7F := by omega
  have h2 : ¬ (0xC2 ≤ b ∧ b ≤ 0xDF) := by omega
  have h3 : b ≠ 0xE0 := by omega
  have h4 : b ≠ 0xED := by omega
  have h5 : ¬ (0xE1 ≤ b ∧ b ≤ 0xEF) := by omega
  have h6 : b ≠ 0xF0 := by omega
  simp [utf8Step, h1, h2, h3, h4, h5, h6, h]

theorem utf8_run_encode (cp : Nat) (hcp : isScalar cp = true) (rest : List Nat) :
    (utf8Encode cp ++ rest).foldl utf8Step .start = rest.foldl utf8Step .start := by
  have hsc : cp < 0xD800 ∨ (0xE000 ≤ cp ∧ cp < 0x110000) := by
    simpa [isScalar] using hcp
  unfold utf8Encode
  by_cases c1 : cp < 0x80
  · have hs : utf8Step .start cp = .start := by
      have : cp ≤ 0x7F := by omega
      simp [utf8Step, this]
    simp only [if_pos c1, List.cons_append, List.nil_append, List.foldl_cons, hs]
  by_cases c2 : cp < 0x800
  · have hs := utf8Step_lead2 (0xC0 + cp / 64) (by omega)
    have hc := utf8Step_cont (0x80 + cp % 64) (by omega)
    simp only [if_neg c1, if_pos c2, List.cons_append, List.nil_append, List.foldl_cons, hs,
      hc.1]
  by_cases c3 : cp < 0x10000
  · have hc2 := utf8Step_cont (0x80 + cp % 64) (by omega)
    simp only [if_neg c1, if_neg c2, if_pos c3, List.cons_append, List.nil_append,
      List.foldl_cons]
    by_cases d0 : cp / 4096 = 0
    · have e : 0xE0 + cp / 4096 = 0xE0 := by omega
      have hs : utf8Step .start 0xE0 = .afterE0 := rfl
      have h1 : utf8Step .afterE0 (0x80 + cp / 64 % 64) = .cont1 := by
        have : 0xA0 ≤ 0x80 + cp / 64 % 64 ∧ 0x80 + cp / 64 % 64 ≤ 0xBF := by omega
        simp [utf8Step, this]
      rw [e, hs, h1, hc2.1]
    by_cases d13 : cp / 4096 = 13
    · have e : 0xE0 + cp / 4096 = 0xED := by omega
      have hs : utf8Step .start 0xED = .afterED := rfl
      have h1 : utf8Step .afterED (0x80 + cp / 64 % 64) = .cont1 := by
        have : 0x80 ≤ 0x80 + cp / 64 % 64 ∧ 0x80 + cp / 64 % 64 ≤ 0x9F := by omega
        simp [utf8Step, this]
      rw [e, hs, h1, hc2.1]
    · have hs := utf8Step_lead3 (0xE0 + cp / 4096) (by omega) (by omega)
      have hc1 := utf8Step_cont (0x80 + cp / 64 % 64) (by omega)
      rw [hs, hc1.2.1, hc2.1]
  · have hc2 := utf8Step_cont (0x80 + cp / 64 % 64) (by omega)
    have hc3 := utf8Step_cont (0x80 + cp % 64) (by omega)
    simp only [if_neg c1, if_neg c2, if_neg c3, List.cons_append, List.nil_append,
      List.foldl_cons]
    by_cases d0 : cp / 262144 = 0
    · have e : 0xF0 + cp / 262144 = 0xF0 := by omega
      have hs : utf8Step .start 0xF0 = .afterF0 := rfl
      have h1 : utf8Step .afterF0 (0x80 + cp / 4096 % 64) = .cont2 := by
        have : 0x90 ≤ 0x80 + cp / 4096 % 64 ∧ 0x80 + cp / 4096 % 64 ≤ 0xBF := by omega
        simp [utf8Step, this]
      rw [e, hs, h1, hc2.2.1, hc3.1]
    by_cases d4 : cp / 262144 = 4
    · have e : 0xF0 + cp / 262144 = 0xF4 := by omega
      have hs : utf8Step .start 0xF4 = .afterF4 := rfl
      have h1 : utf8Step .afterF4 (0x80 + cp / 4096 % 64) = .cont2 := by
        have : 0x80 ≤ 0x80 + cp / 4096 % 64 ∧ 0x80 + cp / 4096 % 64 ≤ 0x8F := by omega
        simp [utf8Step, this]
      rw [e, hs, h1, hc2.2.1, hc3.1]
    · have hs := utf8Step_lead4 (0xF0 + cp / 262144) (by omega)
      have hc1 := utf8Step_cont (0x80 + cp / 4096 % 64) (by omega)
      rw [hs, hc1.2.2, hc2.2.1, hc3.1]

/-- The validator accepts exactly the byte sequences that are the UTF-8 encoding
of a sequence of Unicode scalar values. -/
theorem validUtf8_iff (bs : List Nat) : validUtf8 bs = true ↔ IsUtf8 bs := by
  unfold validUtf8
  rw [decide_eq_true_iff]
  constructor
  · exact utf8_sound_aux bs.length bs (le_refl _)
  · rintro ⟨cps, hs, e⟩
    subst e
    induction cps with
    | nil => rfl
    | cons cp cps ih =>
      rw [List.flatMap_cons, utf8_run_encode cp (hs cp (by simp))]
      exact ih (fun c hc => hs c (by simp [hc]))

/-! ## Reassembly of a message from its frames -/

theorem recvFrames_closing (limit : Int) (st : RecvState) (fs : List Frame)
    (h : st.closing = true) : recvFrames limit st fs = st := by
  induction fs with
  | nil => rfl
  | cons f fs ih =>
    have h1 : recvFrame limit st f = st := by simp [recvFrame, h]
    simpa [recvFrames, h1] using ih

theorem recvFrames_cons (limit : Int) (st : RecvState) (f : Frame) (fs : List Frame) :
    recvFrames limit st (f :: fs) = recvFrames limit (recvFrame limit st f) fs := rfl

theorem recvFrame_pingPong (limit : Int) (st : RecvState) (f : Frame)
    (h : isPingPong f = true) : recvFrame limit st f = st := by
  unfold isPingPong at h
  simp only [Bool.or_eq_true, decide_eq_true_eq] at h
  unfold recvFrame
  split_ifs <;> rfl

theorem recvFrames_filter (limit : Int) (st : RecvState) (fs : List Frame) :
    recvFrames limit st fs = recvFrames limit st (fs.filter (fun f => !isPingPong f)) := by
  induction fs generalizing st with
  | nil => rfl
  | cons f fs ih =>
    by_cases h : isPingPong f = true
    · simp [recvFrames_cons, recvFrame_pingPong limit st f h, h, ih]
    · simp only [Bool.not_eq_true] at h
      simp [recvFrames_cons, h, ih]

theorem exceedsLimit_mono (limit : Int) (n m : Nat) (h : exceedsLimit limit n = true)
    (hnm : n ≤ m) : exceedsLimit limit m = true := by
  unfold exceedsLimit at *
  simp only [Bool.and_eq_true, decide_eq_true_eq] at *
  omega

theorem afterMessage_re (limit : Int) (st : RecvState) (re : Reassembler) (op : Nat)
    (payload : List Nat) :
    afterMessage limit { st with re := re } op payload = afterMessage limit st op payload := by
  unfold afterMessage
  split_ifs <;> rfl

theorem recvFrame_accumulate (limit : Int) (st : RecvState) (f : Frame) (op : Nat)
    (acc : List Nat) (hcl : st.closing = false)
    (hf : reassemble limit st.re f = accumulate limit op acc f)
    (hop : f.opcode ≠ NN_WS_OPCODE_PING ∧ f.opcode ≠ NN_WS_OPCODE_PONG ∧
      f.opcode ≠ NN_WS_OPCODE_CLOSE) :
    recvFrame limit st f =
      if exceedsLimit limit (acc.length + f.payload.length) then
        { st with re := Reassembler.idle, closes := st.closes ++ [1009], closing := true }
      else if f.fin then afterMessage limit st op (acc ++ f.payload)
      else { st with re := { in_fragment := true, opcode := op, acc := acc ++ f.payload } } := by
  obtain ⟨re, delivered, closes, closing⟩ := st
  simp only at hcl hf
  subst hcl
  unfold recvFrame
  simp only [hop.1, hop.2.1, hop.2.2, or_self, if_false, Bool.false_eq_true, hf]
  unfold accumulate afterMessage
  by_cases hex : exceedsLimit limit (acc.length + f.payload.length) = true
  · simp only [hex, if_true]
  · simp only [hex, if_false, List.length_append]
    by_cases hfin : f.fin = true
    · simp only [hfin, if_true]
      split_ifs <;> rfl
    · simp only [hfin, Bool.false_eq_true, if_false]

theorem recvFrames_continuation (limit : Int) (op : Nat) (cs : List (List Nat)) :
    ∀ (c acc : List Nat) (st : RecvState), st.closing = false →
      st.re = { in_fragment := true, opcode := op, acc := acc } →
      recvFrames limit st (continuation c cs) =
        afterMessage limit st op (acc ++ c ++ cs.flatten) := by
  induction cs with
  | nil =>
    intro c acc st hcl hre
    have hf : reassemble limit st.re { fin := true, opcode := 0, payload := c } =
        accumulate limit op acc { fin := true, opcode := 0, payload := c } := by
      simp [reassemble, hre]
    have h := recvFrame_accumulate limit st { fin := true, opcode := 0, payload := c } op acc hcl hf
      (by simp [NN_WS_OPCODE_PING, NN_WS_OPCODE_PONG, NN_WS_OPCODE_CLOSE])
    simp only [continuation, recvFrames, List.foldl_cons, List.foldl_nil, h, List.flatten_nil,
      List.append_nil, if_true]
    by_cases hex : exceedsLimit limit (acc.length + c.length) = true
    · rw [if_pos hex, afterMessage, List.length_append, if_pos hex]
    · rw [if_neg hex]
  | cons c' cs ih =>
    intro c acc st hcl hre
    have hf : reassemble limit st.re { fin := false, opcode := 0, payload := c } =
        accumulate limit op acc { fin := false, opcode := 0, payload := c } := by
      simp [reassemble, hre]
    have h := recvFrame_accumulate limit st { fin := false, opcode := 0, payload := c } op acc hcl
      hf (by simp [NN_WS_OPCODE_PING, NN_WS_OPCODE_PONG, NN_WS_OPCODE_CLOSE])
    rw [continuation, recvFrames_cons, h]
    by_cases hex : exceedsLimit limit (acc.length + c.length) = true
    · have hbig : exceedsLimit limit (acc ++ c ++ (c' :: cs).flatten).length = true :=
        exceedsLimit_mono limit _ _ hex (by simp)
      rw [if_pos hex, recvFrames_closing limit _ _ rfl, afterMessage, if_pos hbig]
    · rw [if_neg hex]
      simp only [Bool.false_eq_true, if_false]
      rw [ih c' (acc ++ c)
        { st with re := { in_fragment := true, opcode := op, acc := acc ++ c } } hcl rfl,
        afterMessage_re]
      simp [List.append_assoc]

theorem recvFrames_fragment (limit : Int) (op : Nat) (c : List Nat) (cs : List (List Nat))
    (st : RecvState) (hcl : st.closing = false) (hre : st.re = Reassembler.idle)
    (hop : op = NN_WS_MSG_TYPE_TEXT ∨ op = NN_WS_MSG_TYPE_BINARY) :
    recvFrames limit st (fragment op c cs) = afterMessage limit st op (c ++ cs.flatten) := by
  have hop0 : op ≠ 0 := by
    rcases hop with h | h <;> simp [h, NN_WS_MSG_TYPE_TEXT, NN_WS_MSG_TYPE_BINARY]
  have hopc : op ≠ NN_WS_OPCODE_PING ∧ op ≠ NN_WS_OPCODE_PONG ∧ op ≠ NN_WS_OPCODE_CLOSE := by
    rcases hop with h | h <;> rw [h] <;> decide
  have hf : ∀ fin, reassemble limit st.re { fin := fin, opcode := op, payload := c } =
      accumulate limit op [] { fin := fin, opcode := op, payload := c } := by
    intro fin
    simp [reassemble, hre, Reassembler.idle, hop0, hop]
  cases cs with
  | nil =>
    have h := recvFrame_accumulate limit st { fin := true, opcode := op, payload := c } op [] hcl
      (hf true) hopc
    simp only [fragment, recvFrames, List.foldl_cons, List.foldl_nil, h, List.flatten_nil,
      List.append_nil, List.nil_append, List.length_nil, Nat.zero_add, if_true]
    by_cases hex : exceedsLimit limit c.length = true
    · rw [if_pos hex, afterMessage, if_pos hex]
    · rw [if_neg hex]
  | cons c' cs =>
    have h := recvFrame_accumulate limit st { fin := false, opcode := op, payload := c } op [] hcl
      (hf false) hopc
    rw [fragment, recvFrames_cons, h]
    simp only [List.length_nil, Nat.zero_add, List.nil_append]
    by_cases hex : exceedsLimit limit c.length = true
    · have hbig : exceedsLimit limit (c ++ (c' :: cs).flatten).length = true :=
        exceedsLimit_mono limit _ _ hex (by simp)
      rw [if_pos hex, recvFrames_closing limit _ _ rfl, afterMessage, if_pos hbig]
    · rw [if_neg hex]
      simp only [Bool.false_eq_true, if_false]
      rw [recvFrames_continuation limit op cs c' c
        { st with re := { in_fragment := true, opcode := op, acc := c } } hcl rfl,
        afterMessage_re]
      simp [List.append_assoc]

/-- What the endpoint does with the frames of one message depends only on the
opcode and the assembled payload, not on how the message was cut into frames. -/
theorem recvFrames_message (limit : Int) (fs : List Frame) (op : Nat) (c : List Nat)
    (cs : List (List Nat)) (st : RecvState) (hfs : Carries fs op c cs)
    (hcl : st.closing = false) (hre : st.re = Reassembler.idle)
    (hop : op = NN_WS_MSG_TYPE_TEXT ∨ op = NN_WS_MSG_TYPE_BINARY) :
    recvFrames limit st fs = afterMessage limit st op (c ++ cs.flatten) := by
  rw [recvFrames_filter, hfs]
  exact recvFrames_fragment limit op c cs st hcl hre hop

theorem recvFrames_append (limit : Int) (st : RecvState) (fs more : List Frame) :
    recvFrames limit st (fs ++ more) = recvFrames limit (recvFrames limit st fs) more := by
  simp [recvFrames, List.foldl_append]

theorem exceedsLimit_nat (N n : Nat) : exceedsLimit (N : Int) n = decide (N < n) := by
  unfold exceedsLimit
  by_cases h : N < n
  · have h1 : (N : Int) < (n : Int) := by exact_mod_cast h
    simp [h, h1]
  · have h1 : ¬ (N : Int) < (n : Int) := by exact_mod_cast h
    simp [h, h1]

theorem filter_continuation (c : List Nat) (cs : List (List Nat)) :
    (continuation c cs).filter (fun f => !isPingPong f) = continuation c cs := by
  induction cs generalizing c with
  | nil => rfl
  | cons c' cs ih =>
    have h : isPingPong { fin := false, opcode := 0, payload := c } = false := rfl
    simp only [continuation, List.filter_cons, h, Bool.not_false, if_true, ih]

/-- The frames of a message, with nothing in between, carry it. -/
theorem carries_fragment (op : Nat) (c : List Nat) (cs : List (List Nat))
    (hop : op = NN_WS_MSG_TYPE_TEXT ∨ op = NN_WS_MSG_TYPE_BINARY) :
    Carries (fragment op c cs) op c cs := by
  have h : ∀ fin, isPingPong { fin := fin, opcode := op, payload := c } = false := by
    intro fin
    rcases hop with h | h <;> rw [h] <;> rfl
  unfold Carries
  cases cs with
  | nil => simp only [fragment, List.filter_cons, h, Bool.not_false, if_true, List.filter_nil]
  | cons c' cs =>
    simp only [fragment, List.filter_cons, h, Bool.not_false, if_true, filter_continuation]

/-! ## Receive size limit -/

/-- C3, as stated, fails: with the limit 4, the Text message `'B','A',0xDD,'.'` of
`tests/ws.c` has 4 bytes, at most the limit, and is not delivered; `recv` times out. -/
theorem rcvmaxsize_within_limit_not_delivered :
    [66, 65, 0xDD, 46].length ≤ 4 ∧
    (recvFrames 4 RecvState.init
      (fragment NN_WS_MSG_TYPE_TEXT [66, 65, 0xDD, 46] [])).delivered = [] ∧
    (nn_recv (recvFrames 4 RecvState.init
      (fragment NN_WS_MSG_TYPE_TEXT [66, 65, 0xDD, 46] []))).1 = .error .ETIMEDOUT :=
  ⟨by decide, by decide, rfl⟩

/-- C3 (amended): with the receive limit `N ≥ 0`, a peer message that is Binary,
or Text with a valid UTF-8 payload, however it is cut into frames, is delivered
if and only if its total length is at most `N`. A message of at most `N` bytes
is delivered unchanged and nothing else happens; a message of more than `N`
bytes causes exactly one Close 1009, the connection is failed, and neither it
nor anything that follows is delivered. -/
theorem rcvmaxsize_delivers_iff_fits (N : Nat) (st : RecvState) (fs : List Frame) (op : Nat)
    (c : List Nat) (cs : List (List Nat)) (hcl : st.closing = false)
    (hre : st.re = Reassembler.idle)
    (hop : op = NN_WS_MSG_TYPE_TEXT ∨ op = NN_WS_MSG_TYPE_BINARY)
    (hfs : Carries fs op c cs)
    (hwf : op = NN_WS_MSG_TYPE_BINARY ∨ IsUtf8 (c ++ cs.flatten)) :
    ((recvFrames (N : Int) st fs).delivered = st.delivered ++ [(op, c ++ cs.flatten)] ↔
      (c ++ cs.flatten).length ≤ N) ∧
    ((c ++ cs.flatten).length ≤ N →
      recvFrames (N : Int) st fs =
        { st with delivered := st.delivered ++ [(op, c ++ cs.flatten)] }) ∧
    (N < (c ++ cs.flatten).length → ∀ more : List Frame,
      recvFrames (N : Int) st (fs ++ more) =
        { st with closes := st.closes ++ [1009], closing := true } ∧
      (st.delivered = [] →
        (nn_recv (recvFrames (N : Int) st (fs ++ more))).1 = .error .ETIMEDOUT)) := by
  have hmsg := recvFrames_message (N : Int) fs op c cs st hfs hcl hre hop
  have hnot : ¬ (op = NN_WS_MSG_TYPE_TEXT ∧ validUtf8 (c ++ cs.flatten) = false) := by
    rintro ⟨h1, h2⟩
    rcases hwf with h | h
    · rw [h1] at h
      exact absurd h (by decide)
    · rw [(validUtf8_iff _).2 h] at h2
      exact absurd h2 (by decide)
  obtain ⟨re, delivered, closes, closing⟩ := st
  simp only at hcl hre
  subst hcl hre
  have hfit : (c ++ cs.flatten).length ≤ N →
      recvFrames (N : Int) ⟨Reassembler.idle, delivered, closes, false⟩ fs =
        ⟨Reassembler.idle, delivered ++ [(op, c ++ cs.flatten)], closes, false⟩ := by
    intro hle
    have hex : exceedsLimit (N : Int) (c ++ cs.flatten).length = false := by
      rw [exceedsLimit_nat]
      exact decide_eq_false (by omega)
    rw [hmsg, afterMessage]
    simp only [hex, Bool.false_eq_true, if_false, hnot]
  have hbig : N < (c ++ cs.flatten).length →
      recvFrames (N : Int) ⟨Reassembler.idle, delivered, closes, false⟩ fs =
        ⟨Reassembler.idle, delivered, closes ++ [1009], true⟩ := by
    intro hlt
    have hex : exceedsLimit (N : Int) (c ++ cs.flatten).length = true := by
      rw [exceedsLimit_nat]
      exact decide_eq_true hlt
    rw [hmsg, afterMessage]
    simp only [hex, if_true]
  refine ⟨⟨?_, ?_⟩, hfit, ?_⟩
  · intro hd
    by_contra hgt
    rw [hbig (by omega)] at hd
    simp at hd
  · intro hle
    rw [hfit hle]
  · intro hlt more
    rw [recvFrames_append, hbig hlt, recvFrames_closing _ _ _ rfl]
    refine ⟨rfl, ?_⟩
    intro hd
    simp only at hd
    subst hd
    rfl

/-- Witness of C3 (amended): the three messages of `tests/ws.c`, lines 209-216,
with the limit 4: `ABC` and `ABCD` are delivered, `ABCDE` is not. -/
theorem rcvmaxsize_delivers_iff_fits_witness :
    recvFrames 4 RecvState.init (fragment NN_WS_MSG_TYPE_BINARY (bytesOf "ABC") []) =
      { RecvState.init with delivered := [(NN_WS_MSG_TYPE_BINARY, bytesOf "ABC")] } ∧
    recvFrames 4 RecvState.init (fragment NN_WS_MSG_TYPE_BINARY (bytesOf "ABCD") []) =
      { RecvState.init with delivered := [(NN_WS_MSG_TYPE_BINARY, bytesOf "ABCD")] } ∧
    recvFrames 4 RecvState.init
        (fragment NN_WS_MSG_TYPE_BINARY (bytesOf "ABCDE") [] ++
          fragment NN_WS_MSG_TYPE_BINARY (bytesOf "ABC") []) =
      { RecvState.init with closes := [1009], closing := true } ∧
    (nn_recv (recvFrames 4 RecvState.init
        (fragment NN_WS_MSG_TYPE_BINARY (bytesOf "ABCDE") [] ++
          fragment NN_WS_MSG_TYPE_BINARY (bytesOf "ABC") []))).1 = .error .ETIMEDOUT :=
  ⟨(rcvmaxsize_delivers_iff_fits 4 RecvState.init _ NN_WS_MSG_TYPE_BINARY (bytesOf "ABC") []
      rfl rfl (Or.inr rfl) (carries_fragment _ _ _ (by decide)) (Or.inl rfl)).2.1 (by decide),
   (rcvmaxsize_delivers_iff_fits 4 RecvState.init _ NN_WS_MSG_TYPE_BINARY (bytesOf "ABCD") []
      rfl rfl (Or.inr rfl) (carries_fragment _ _ _ (by decide)) (Or.inl rfl)).2.1 (by decide),
   ((rcvmaxsize_delivers_iff_fits 4 RecvState.init _ NN_WS_MSG_TYPE_BINARY (bytesOf "ABCDE") []
      rfl rfl (Or.inr rfl) (carries_fragment _ _ _ (by decide)) (Or.inl rfl)).2.2 (by decide)
      (fragment NN_WS_MSG_TYPE_BINARY (bytesOf "ABC") [])).1,
   ((rcvmaxsize_delivers_iff_fits 4 RecvState.init _ NN_WS_MSG_TYPE_BINARY (bytesOf "ABCDE") []
      rfl rfl (Or.inr rfl) (carries_fragment _ _ _ (by decide)) (Or.inl rfl)).2.2 (by decide)
      (fragment NN_WS_MSG_TYPE_BINARY (bytesOf "ABC") [])).2 rfl⟩

/-! ## UTF-8 enforcement on Text messages -/

/-- C4, as stated, fails: with the receive limit 4, the Text message `ABCDE` is
valid UTF-8 and is not delivered; `recv` times out. -/
theorem text_valid_utf8_not_delivered :
    IsUtf8 (bytesOf "ABCDE") ∧
    (recvFrames 4 RecvState.init
      (fragment NN_WS_MSG_TYPE_TEXT (bytesOf "ABCDE") [])).delivered = [] ∧
    (nn_recv (recvFrames 4 RecvState.init
      (fragment NN_WS_MSG_TYPE_TEXT (bytesOf "ABCDE") []))).1 = .error .ETIMEDOUT :=
  ⟨(validUtf8_iff _).1 (by decide), by decide, rfl⟩

/-- C4 (amended): a Text message whose payload is not valid UTF-8 is never
delivered, whatever the receive limit and whatever follows it; a Text message
whose total length is within the receive limit (or the limit is unbounded) is
delivered, unchanged, if and only if its payload is valid UTF-8, and when it
is not the endpoint sends one Close 1007 and fails the connection. This holds
however the message is cut into frames. -/
theorem text_delivered_iff_utf8 (limit : Int) (st : RecvState) (fs : List Frame)
    (c : List Nat) (cs : List (List Nat)) (hcl : st.closing = false)
    (hre : st.re = Reassembler.idle) (hfs : Carries fs NN_WS_MSG_TYPE_TEXT c cs) :
    (¬ IsUtf8 (c ++ cs.flatten) → ∀ more : List Frame,
      (recvFrames limit st (fs ++ more)).delivered = st.delivered ∧
      (st.delivered = [] →
        (nn_recv (recvFrames limit st (fs ++ more))).1 = .error .ETIMEDOUT)) ∧
    (exceedsLimit limit (c ++ cs.flatten).length = false →
      ((recvFrames limit st fs).delivered =
          st.delivered ++ [(NN_WS_MSG_TYPE_TEXT, c ++ cs.flatten)] ↔
        IsUtf8 (c ++ cs.flatten)) ∧
      (IsUtf8 (c ++ cs.flatten) →
        recvFrames limit st fs =
          { st with delivered := st.delivered ++ [(NN_WS_MSG_TYPE_TEXT, c ++ cs.flatten)] }) ∧
      (¬ IsUtf8 (c ++ cs.flatten) →
        recvFrames limit st fs =
          { st with closes := st.closes ++ [1007], closing := true })) := by
  have hmsg := recvFrames_message limit fs NN_WS_MSG_TYPE_TEXT c cs st hfs hcl hre (Or.inl rfl)
  have hinv : ¬ IsUtf8 (c ++ cs.flatten) → validUtf8 (c ++ cs.flatten) = false := by
    intro h
    by_contra hv
    simp only [Bool.not_eq_false] at hv
    exact h ((validUtf8_iff _).1 hv)
  obtain ⟨re, delivered, closes, closing⟩ := st
  simp only at hcl hre
  subst hcl hre
  have hgood : exceedsLimit limit (c ++ cs.flatten).length = false →
      IsUtf8 (c ++ cs.flatten) →
      recvFrames limit ⟨Reassembler.idle, delivered, closes, false⟩ fs =
        ⟨Reassembler.idle, delivered ++ [(NN_WS_MSG_TYPE_TEXT, c ++ cs.flatten)], closes, false⟩ := by
    intro hex hu
    have hv := (validUtf8_iff _).2 hu
    rw [hmsg, afterMessage]
    simp only [hex, hv, Bool.false_eq_true, if_false, and_false, Bool.true_eq_false]
  have hbad : exceedsLimit limit (c ++ cs.flatten).length = false →
      ¬ IsUtf8 (c ++ cs.flatten) →
      recvFrames limit ⟨Reassembler.idle, delivered, closes, false⟩ fs =
        ⟨Reassembler.idle, delivered, closes ++ [1007], true⟩ := by
    intro hex hu
    have hv := hinv hu
    rw [hmsg, afterMessage]
    simp only [hex, hv, Bool.false_eq_true, if_false, and_self, if_true]
  refine ⟨?_, ?_⟩
  · intro hu more
    have hv := hinv hu
    have hdel : (recvFrames limit ⟨Reassembler.idle, delivered, closes, false⟩
        (fs ++ more)).delivered = delivered := by
      rw [recvFrames_append, hmsg, afterMessage]
      by_cases hex : exceedsLimit limit (c ++ cs.flatten).length = true
      · rw [if_pos hex, recvFrames_closing _ _ _ rfl]
      · rw [if_neg hex, if_pos ⟨rfl, hv⟩, recvFrames_closing _ _ _ rfl]
    refine ⟨hdel, ?_⟩
    intro hd
    simp only at hd
    unfold nn_recv
    rw [hdel, hd]
  · intro hex
    refine ⟨⟨?_, ?_⟩, hgood hex, hbad hex⟩
    · intro hd
      by_contra hu
      rw [hbad hex hu] at hd
      simp at hd
    · intro hu
      rw [hgood hex hu]

/-- Witness of C4 (amended): the two messages of `test_text` in `tests/ws.c`,
under the default limit of 1 MiB: `GOOD` is delivered as `GOOD`,
`'B','A',0xDD,'.'` is not. -/
theorem text_delivered_iff_utf8_witness :
    recvFrames 1048576 RecvState.init (fragment NN_WS_MSG_TYPE_TEXT (bytesOf "GOOD") []) =
      { RecvState.init with delivered := [(NN_WS_MSG_TYPE_TEXT, bytesOf "GOOD")] } ∧
    recvFrames 1048576 RecvState.init (fragment NN_WS_MSG_TYPE_TEXT [66, 65, 0xDD, 46] []) =
      { RecvState.init with closes := [1007], closing := true } ∧
    (nn_recv (recvFrames 1048576 RecvState.init
        (fragment NN_WS_MSG_TYPE_TEXT [66, 65, 0xDD, 46] [] ++
          fragment NN_WS_MSG_TYPE_TEXT (bytesOf "GOOD") []))).1 = .error .ETIMEDOUT :=
  ⟨((text_delivered_iff_utf8 1048576 RecvState.init _ (bytesOf "GOOD") [] rfl rfl
      (carries_fragment _ _ _ (Or.inl rfl))).2 (by decide)).2.1
      ((validUtf8_iff _).1 (by decide)),
   ((text_delivered_iff_utf8 1048576 RecvState.init _ [66, 65, 0xDD, 46] [] rfl rfl
      (carries_fragment _ _ _ (Or.inl rfl))).2 (by decide)).2.2
      (fun h => absurd ((validUtf8_iff _).2 h) (by decide)),
   ((text_delivered_iff_utf8 1048576 RecvState.init _ [66, 65, 0xDD, 46] [] rfl rfl
      (carries_fragment _ _ _ (Or.inl rfl))).1
      (fun h => absurd ((validUtf8_iff _).2 h) (by decide))
      (fragment NN_WS_MSG_TYPE_TEXT (bytesOf "GOOD") [])).2 rfl⟩

/-! ## Setting the receive size limit -/

/-- C5: setting `NN_RCVMAXSIZE` succeeds for -1 and for every non-negative value,
and then the new limit is in force; for every value below -1 it returns a
negative value with `EINVAL` and the socket, hence the limit configured before,
is unchanged. -/
theorem rcvmaxsize_setsockopt (s : Socket) (opt : Int) :
    (-1 ≤ opt →
      (nn_setsockopt_rcvmaxsize s opt).rc = 0 ∧ (nn_setsockopt_rcvmaxsize s opt).errno = none ∧
      (nn_setsockopt_rcvmaxsize s opt).sock = { s with rcvmaxsize := opt }) ∧
    (opt < -1 →
      (nn_setsockopt_rcvmaxsize s opt).rc < 0 ∧
      (nn_setsockopt_rcvmaxsize s opt).errno = some .EINVAL ∧
      (nn_setsockopt_rcvmaxsize s opt).sock = s) := by
  unfold nn_setsockopt_rcvmaxsize
  constructor
  · intro h
    have h' : ¬ opt < -1 := by omega
    simp [h']
  · intro h
    simp [h]

/-- Witness of C5: the values of `tests/ws.c`, lines 188-197 and 209-210: -1 and
4 are accepted, -2 is rejected and the limit stays at its previous value. -/
theorem rcvmaxsize_setsockopt_witness :
    (nn_setsockopt_rcvmaxsize Socket.fresh (-1)).rc = 0 ∧
    (nn_setsockopt_rcvmaxsize Socket.fresh (-1)).sock.rcvmaxsize = -1 ∧
    (nn_setsockopt_rcvmaxsize Socket.fresh 4).rc = 0 ∧
    (nn_setsockopt_rcvmaxsize Socket.fresh 4).sock.rcvmaxsize = 4 ∧
    (nn_setsockopt_rcvmaxsize Socket.fresh (-2)).rc < 0 ∧
    (nn_setsockopt_rcvmaxsize Socket.fresh (-2)).errno = some .EINVAL ∧
    (nn_setsockopt_rcvmaxsize Socket.fresh (-2)).sock.rcvmaxsize = 1048576 :=
  ⟨((rcvmaxsize_setsockopt Socket.fresh (-1)).1 (by decide)).1,
   by rw [((rcvmaxsize_setsockopt Socket.fresh (-1)).1 (by decide)).2.2],
   ((rcvmaxsize_setsockopt Socket.fresh 4).1 (by decide)).1,
   by rw [((rcvmaxsize_setsockopt Socket.fresh 4).1 (by decide)).2.2],
   ((rcvmaxsize_setsockopt Socket.fresh (-2)).2 (by decide)).1,
   ((rcvmaxsize_setsockopt Socket.fresh (-2)).2 (by decide)).2.1,
   by rw [((rcvmaxsize_setsockopt Socket.fresh (-2)).2 (by decide)).2.2]; rfl⟩

/-! ## Default port -/

theorem checkHostname_head (h : List Char) (hv : checkHostname h = true) :
    h ≠ [] ∧ h.head? ≠ some '-' := by
  cases h with
  | nil => exact absurd hv (by decide)
  | cons c cs =>
    refine ⟨by simp, ?_⟩
    intro hc
    simp only [List.head?_cons, Option.some.injEq] at hc
    subst hc
    have := checkHostname_of_violation _ (HostnameViolation.leadingHyphen cs)
    rw [this] at hv
    exact absurd hv (by decide)

theorem isIPv4Literal_head (h : List Char) (hv : isIPv4Literal h = true) :
    h ≠ [] ∧ h.head? ≠ some '-' := by
  cases h with
  | nil => exact absurd hv (by decide)
  | cons c cs =>
    refine ⟨by simp, ?_⟩
    intro hc
    simp only [List.head?_cons, Option.some.injEq] at hc
    subst hc
    obtain ⟨l, ls, _, h2⟩ := labels_cons_of_ne '-' cs (by decide)
    unfold isIPv4Literal at hv
    rw [h2] at hv
    split at hv
    · rename_i a b c d heq
      simp only [List.cons.injEq] at heq
      have ha : isOctet a = false := by
        rw [← heq.1]
        simp [isOctet, isDigit]
      simp [ha] at hv
    · exact absurd hv (by decide)

theorem resolvePort_some (o : Option (List Char)) (n : Nat) (h : resolvePort o = some n) :
    (o = none → n = 80) ∧ 1 ≤ n ∧ n ≤ 65535 := by
  unfold resolvePort at h
  split at h
  · simp only [Option.some.injEq] at h
    subst h
    exact ⟨fun _ => rfl, by decide, by decide⟩
  · split_ifs at h with h1 h2 h3
    simp only [Option.some.injEq] at h
    subst h
    exact ⟨fun e => by simp at e, h3.1, h3.2⟩

theorem parseConnect_port (ifaces : List (List Char)) (rest : List Char) (a : WsAddress)
    (h : parseConnect ifaces rest = .ok a) : resolvePort (splitAddr rest).port = some a.port := by
  cases hp : resolvePort (splitAddr rest).port with
  | none =>
    simp only [parseConnect, hp] at h
    split_ifs at h
  | some port =>
    simp only [parseConnect, hp] at h
    cases hi : (splitAddr rest).iface with
    | none =>
      simp only [hi] at h
      split_ifs at h
      simp only [Except.ok.injEq] at h
      rw [← h]
    | some i =>
      simp only [hi] at h
      split_ifs at h
      simp only [Except.ok.injEq] at h
      rw [← h]

theorem parseBind_port (ifaces : List (List Char)) (rest : List Char) (a : WsAddress)
    (h : parseBind ifaces rest = .ok a) : resolvePort (splitAddr rest).port = some a.port := by
  cases hp : resolvePort (splitAddr rest).port with
  | none =>
    simp only [parseBind, hp] at h
    split_ifs at h
  | some port =>
    simp only [parseBind, hp] at h
    cases hi : (splitAddr rest).iface with
    | none =>
      simp only [hi] at h
      split_ifs at h
      simp only [Except.ok.injEq] at h
      rw [← h]
    | some i =>
      simp only [hi] at h
      split_ifs at h
      simp only [Except.ok.injEq] at h
      rw [← h]

theorem parseConnect_valid (ifaces : List (List Char)) (rest : List Char)
    (hport : (splitAddr rest).port = none) (hv : ValidConnect ifaces (splitAddr rest)) :
    parseConnect ifaces rest =
      .ok { iface := (splitAddr rest).iface, host := (splitAddr rest).host, port := 80,
            resource := resourceOrRoot (splitAddr rest).resource } := by
  obtain ⟨hhost, hif⟩ := hv
  have hhead : (splitAddr rest).host ≠ [] ∧ (splitAddr rest).host.head? ≠ some '-' := by
    rcases hhost with h | h
    · exact isIPv4Literal_head _ h
    · exact checkHostname_head _ h
  have hor : (isIPv4Literal (splitAddr rest).host || checkHostname (splitAddr rest).host) = true := by
    rcases hhost with h | h <;> simp [h]
  unfold parseConnect
  simp only [hhead.1, hhead.2, hport, resolvePort, hor, if_false, Bool.not_true,
    Bool.false_eq_true]
  cases hi : (splitAddr rest).iface with
  | none => rfl
  | some i => simp [hif i hi]

theorem parseBind_valid (ifaces : List (List Char)) (rest : List Char)
    (hport : (splitAddr rest).port = none) (hv : ValidBind ifaces (splitAddr rest)) :
    parseBind ifaces rest =
      .ok { iface := (splitAddr rest).iface, host := (splitAddr rest).host, port := 80,
            resource := ['/'] } := by
  obtain ⟨hhost, hres, hif⟩ := hv
  have hhead : (splitAddr rest).host ≠ [] ∧ (splitAddr rest).host.head? ≠ some '-' := by
    rcases hhost with h | h | h
    · rw [h]
      decide
    · exact isIPv4Literal_head _ h
    · exact h.2
  have hor : (decide ((splitAddr rest).host = ['*']) || isIPv4Literal (splitAddr rest).host ||
      decide ((splitAddr rest).host ∈ ifaces)) = true := by
    rcases hhost with h | h | h
    · simp [h]
    · simp [h]
    · simp [h.1]
  unfold parseBind
  simp only [hhead.1, hhead.2, hport, resolvePort, hor, hres, if_false, Bool.not_true,
    Bool.false_eq_true, ne_eq, not_true_eq_false]
  cases hi : (splitAddr rest).iface with
  | none => rfl
  | some i => simp [hif i hi]

/-- C6: for a `ws://` address with no `:port` part, a successful parse, on the
connect side and on the bind side, yields port 80; and when the rest of the
address is valid the parse does succeed, `nn_connect` (`nn_bind`) returns the
non-negative id of a new endpoint, and that endpoint targets port 80. -/
theorem ws_default_port (ifaces : List (List Char)) (s : Socket) (addr : String)
    (rest : List Char) (hws : wsRest addr.toList = some rest)
    (hport : (splitAddr rest).port = none) :
    (∀ a, parseConnect ifaces rest = .ok a → a.port = 80) ∧
    (∀ a, parseBind ifaces rest = .ok a → a.port = 80) ∧
    (ValidConnect ifaces (splitAddr rest) →
      0 ≤ (nn_connect ifaces s addr).rc ∧ (nn_connect ifaces s addr).rc = (s.nexteid : Int) ∧
      (nn_connect ifaces s addr).errno = none ∧
      (nn_connect ifaces s addr).sock.endpoints = s.endpoints ++
        [{ eid := s.nexteid, bound := false,
           address := { iface := (splitAddr rest).iface, host := (splitAddr rest).host,
                        port := 80, resource := resourceOrRoot (splitAddr rest).resource } }]) ∧
    (ValidBind ifaces (splitAddr rest) →
      0 ≤ (nn_bind ifaces s addr).rc ∧ (nn_bind ifaces s addr).rc = (s.nexteid : Int) ∧
      (nn_bind ifaces s addr).errno = none ∧
      (nn_bind ifaces s addr).sock.endpoints = s.endpoints ++
        [{ eid := s.nexteid, bound := true,
           address := { iface := (splitAddr rest).iface, host := (splitAddr rest).host,
                        port := 80, resource := ['/'] } }]) := by
  refine ⟨?_, ?_, ?_, ?_⟩
  · intro a ha
    have h := parseConnect_port ifaces rest a ha
    exact (resolvePort_some _ _ h).1 hport
  · intro a ha
    have h := parseBind_port ifaces rest a ha
    exact (resolvePort_some _ _ h).1 hport
  · intro hv
    unfold nn_connect
    simp only [hws, parseConnect_valid ifaces rest hport hv, createEndpoint]
    exact ⟨Int.natCast_nonneg _, trivial, trivial, trivial⟩
  · intro hv
    unfold nn_bind
    simp only [hws, parseBind_valid ifaces rest hport hv, createEndpoint]
    exact ⟨Int.natCast_nonneg _, trivial, trivial, trivial⟩

/-- Witness of C6: `nn_connect (sc, "ws://127.0.0.1")` of `tests/ws.c`, line 112,
and the same address on the bind side. -/
theorem ws_default_port_witness :
    (0 ≤ (nn_connect [] Socket.fresh "ws://127.0.0.1").rc ∧
      (nn_connect [] Socket.fresh "ws://127.0.0.1").rc = 0 ∧
      (nn_connect [] Socket.fresh "ws://127.0.0.1").errno = none ∧
      (nn_connect [] Socket.fresh "ws://127.0.0.1").sock.endpoints =
        [{ eid := 0, bound := false,
           address := { iface := none, host := "127.0.0.1".toList, port := 80,
                        resource := ['/'] } }]) ∧
    (0 ≤ (nn_bind [] Socket.fresh "ws://127.0.0.1").rc ∧
      (nn_bind [] Socket.fresh "ws://127.0.0.1").rc = 0 ∧
      (nn_bind [] Socket.fresh "ws://127.0.0.1").errno = none ∧
      (nn_bind [] Socket.fresh "ws://127.0.0.1").sock.endpoints =
        [{ eid := 0, bound := true,
           address := { iface := none, host := "127.0.0.1".toList, port := 80,
                        resource := ['/'] } }]) :=
  ⟨(ws_default_port [] Socket.fresh "ws://127.0.0.1" "127.0.0.1".toList (by decide)
      (by decide)).2.2.1 ⟨Or.inl (by decide), fun i hi => absurd hi (by simp [splitAddr, splitFirst, splitLast])⟩,
   (ws_default_port [] Socket.fresh "ws://127.0.0.1" "127.0.0.1".toList (by decide)
      (by decide)).2.2.2
      ⟨Or.inr (Or.inl (by decide)), by decide, fun i hi => absurd hi (by simp [splitAddr, splitFirst, splitLast])⟩⟩

/-! ## The message type reported by `nn_ws_recv` -/

theorem findMsgTypeHdr_some (NN_WS NN_WS_MSG_TYPE : Int) (hdrs : List nn_cmsghdr)
    (c : nn_cmsghdr) (h : findMsgTypeHdr NN_WS NN_WS_MSG_TYPE hdrs = some c) :
    c ∈ hdrs ∧ c.cmsg_level = NN_WS ∧ c.cmsg_type = NN_WS_MSG_TYPE := by
  unfold findMsgTypeHdr at h
  have h1 := List.find?_some h
  have h2 := List.mem_of_find?_eq_some h
  simp only [isMsgTypeHdr, Bool.and_eq_true, decide_eq_true_eq] at h1
  exact ⟨h2, h1.1, h1.2⟩

theorem cstr_ne_zero (s : List Nat) : ∀ x ∈ cstr s, x ≠ 0 := by
  intro x hx
  have h := List.mem_takeWhile_imp hx
  simpa using h

theorem cstr_append_nul (l r : List Nat) (h : ∀ x ∈ l, x ≠ 0) : cstr (l ++ 0 :: r) = l := by
  induction l with
  | nil => simp [cstr]
  | cons x xs ih =>
    have hx : x ≠ 0 := h x (by simp)
    have hxs : ∀ y ∈ xs, y ≠ 0 := fun y hy => h y (by simp [hy])
    have hb : (x != 0) = true := by simp [hx]
    have := ih hxs
    unfold cstr at this ⊢
    simp [List.takeWhile, hb, this]

theorem cstr_of_no_nul (s : List Nat) (h : 0 ∉ s) : cstr s = s := by
  unfold cstr
  rw [List.takeWhile_eq_self_iff]
  intro x hx
  have : x ≠ 0 := fun e => h (e ▸ hx)
  simp [this]

theorem cstr_strcpy (dst src : List Nat) : cstr (strcpy dst src) = cstr src := by
  unfold strcpy
  exact cstr_append_nul _ _ (cstr_ne_zero src)

theorem sp_epbase_init_ok (SP_SOCKADDR_MAX : Nat) (self : sp_epbase) (vfptr : Nat)
    (addr : List Nat) (hint : Nat) (h : strlen addr ≤ SP_SOCKADDR_MAX) :
    sp_epbase_init SP_SOCKADDR_MAX self vfptr addr hint =
      some { vfptr := vfptr, sock := hint, addr := strcpy self.addr addr } := by
  unfold sp_epbase_init
  simp [h]

/-- C8, as stated, fails: after `sp_epbase_init` with the address `ws://a`,
`sp_epbase_getaddr` gives `ws://a`; after `sp_ep_close` with a transport whose
`close` clears the stored address it gives the empty string. -/
theorem epbase_addr_lost_after_close :
    sp_epbase_init 8 { vfptr := 0, sock := 0, addr := List.replicate 9 0 } 1
        (bytesOf "ws://a") 2 =
      some { vfptr := 1, sock := 2, addr := bytesOf "ws://a" ++ [0, 0, 0] } ∧
    cstr (sp_epbase_getaddr { vfptr := 1, sock := 2, addr := bytesOf "ws://a" ++ [0, 0, 0] }) =
      bytesOf "ws://a" ∧
    cstr (sp_epbase_getaddr
      (sp_ep_close (fun _ => clearingClose)
        { vfptr := 1, sock := 2, addr := bytesOf "ws://a" ++ [0, 0, 0] } 0 ()).2.1) = [] ∧
    cstr (sp_epbase_getaddr
      (sp_ep_close (fun _ => clearingClose)
        { vfptr := 1, sock := 2, addr := bytesOf "ws://a" ++ [0, 0, 0] } 0 ()).2.1) ≠
      bytesOf "ws://a" := by
  decide

/-- C8 (amended): for every string `addr` with `strlen (addr) <= SP_SOCKADDR_MAX`,
`sp_epbase_init` returns and the string `sp_epbase_getaddr` then yields equals
`addr` character for character; it stays so after `sp_epbase_term`,
`sp_epbase_getcp` and `sp_ep_fd`, and after `sp_ep_close` whenever the
transport's `close` leaves `self->addr` as it is. -/
theorem epbase_addr_roundtrip (SP_SOCKADDR_MAX : Nat) (self : sp_epbase) (vfptr : Nat)
    (addr : List Nat) (hint : Nat) (h : strlen addr ≤ SP_SOCKADDR_MAX) :
    ∃ self', sp_epbase_init SP_SOCKADDR_MAX self vfptr addr hint = some self' ∧
      cstr (sp_epbase_getaddr self') = cstr addr ∧
      strlen (sp_epbase_getaddr self') = strlen addr ∧
      (0 ∉ addr → cstr (sp_epbase_getaddr self') = addr) ∧
      cstr (sp_epbase_getaddr (sp_epbase_term self')) = cstr addr ∧
      (∀ sp_sock_getcp : Nat → Nat,
        cstr (sp_epbase_getaddr (sp_epbase_getcp sp_sock_getcp self').2) = cstr addr) ∧
      (∀ sp_sock_fd : Nat → Int,
        cstr (sp_epbase_getaddr (sp_ep_fd sp_sock_fd self').2) = cstr addr) ∧
      (∀ (W : Type) (tables : Nat → sp_epbase_vfptr W) (linger : Int) (w : W),
        ((tables vfptr).close self' linger w).2.1.addr = self'.addr →
        cstr (sp_epbase_getaddr (sp_ep_close tables self' linger w).2.1) = cstr addr) := by
  refine ⟨_, sp_epbase_init_ok SP_SOCKADDR_MAX self vfptr addr hint h, ?_⟩
  have hrt : cstr (strcpy self.addr addr) = cstr addr := cstr_strcpy self.addr addr
  refine ⟨hrt, ?_, ?_, hrt, fun _ => hrt, fun _ => hrt, ?_⟩
  · unfold strlen sp_epbase_getaddr
    rw [hrt]
  · intro h0
    unfold sp_epbase_getaddr
    rw [hrt, cstr_of_no_nul addr h0]
  · intro W tables linger w hkeep
    unfold sp_ep_close sp_epbase_getaddr
    rw [hkeep]
    exact hrt

/-- Witness of C8 (amended): the address `ws://a` in an array of 9 bytes. -/
theorem epbase_addr_roundtrip_witness :
    strlen (bytesOf "ws://a") ≤ 8 ∧
    sp_epbase_init 8 { vfptr := 0, sock := 0, addr := List.replicate 9 0 } 1
        (bytesOf "ws://a") 2 =
      some { vfptr := 1, sock := 2, addr := bytesOf "ws://a" ++ [0, 0, 0] } ∧
    cstr (sp_epbase_getaddr { vfptr := 1, sock := 2, addr := bytesOf "ws://a" ++ [0, 0, 0] }) =
      bytesOf "ws://a" := by
  obtain ⟨self', h1, _, _, h2, _⟩ :=
    epbase_addr_roundtrip 8 { vfptr := 0, sock := 0, addr := List.replicate 9 0 } 1
      (bytesOf "ws://a") 2 (by decide)
  have e : sp_epbase_init 8 { vfptr := 0, sock := 0, addr := List.replicate 9 0 } 1
      (bytesOf "ws://a") 2 =
      some { vfptr := 1, sock := 2, addr := bytesOf "ws://a" ++ [0, 0, 0] } := by decide
  rw [e] at h1
  simp only [Option.some.injEq] at h1
  subst h1
  exact ⟨by decide, e, h2 (by decide)⟩

/-- C9: for an endpoint initialised with the virtual table `vfptr`, `sp_ep_close`
is the transport's `close` applied once to that endpoint and that linger value:
it returns what that call returns and the endpoint and the rest of the state are
as that call leaves them. With a `close` that records its calls and leaves the
endpoint alone, exactly one call is recorded, with the same endpoint and linger,
and the endpoint is unchanged. -/
theorem ep_close_dispatch {W : Type} (tables : Nat → sp_epbase_vfptr W)
    (SP_SOCKADDR_MAX : Nat) (self0 : sp_epbase) (vfptr : Nat) (addr : List Nat) (hint : Nat)
    (self : sp_epbase) (linger : Int) (w : W)
    (hinit : sp_epbase_init SP_SOCKADDR_MAX self0 vfptr addr hint = some self) :
    sp_ep_close tables self linger w = (tables vfptr).close self linger w ∧
    (∀ (rc : Int) (calls : List (sp_epbase × Int)),
      sp_ep_close (fun _ => recordingClose rc) self linger calls =
        (rc, self, calls ++ [(self, linger)])) := by
  have hv : self.vfptr = vfptr := by
    unfold sp_epbase_init at hinit
    split_ifs at hinit
    simp only [Option.some.injEq] at hinit
    rw [← hinit]
  constructor
  · unfold sp_ep_close
    rw [hv]
  · intro rc calls
    rfl

/-- Witness of C9: an endpoint initialised with table 1 and closed with linger 7. -/
theorem ep_close_dispatch_witness :
    sp_ep_close (fun _ => recordingClose 0)
        { vfptr := 1, sock := 2, addr := bytesOf "ws://a" ++ [0, 0, 0] } 7 [] =
      (0, { vfptr := 1, sock := 2, addr := bytesOf "ws://a" ++ [0, 0, 0] },
        [({ vfptr := 1, sock := 2, addr := bytesOf "ws://a" ++ [0, 0, 0] }, 7)]) :=
  (ep_close_dispatch (fun _ => recordingClose 0) 8
    { vfptr := 0, sock := 0, addr := List.replicate 9 0 } 1 (bytesOf "ws://a") 2
    { vfptr := 1, sock := 2, addr := bytesOf "ws://a" ++ [0, 0, 0] } 7 [] (by decide)).1

/-! ## Autobahn verdicts -/

/-- C10 fails on the code: for the responses `FAILED` and `UNIMPLEMENTED`, passed
with their lengths as `main` does, `nn_ws_check_result` returns 0, not -1, and
the `switch` of `main` counts a pass; for `OK`, `NON-STRICT` and
`INFORMATIONAL` it returns 0. -/
theorem check_result_failed_returns_zero (case_num : Int) :
    nn_ws_check_result case_num FAILED (strlen FAILED) = some 0 ∧
    nn_ws_check_result case_num UNIMP (strlen UNIMP) = some 0 ∧
    tally (0, 0) (nn_ws_check_result case_num FAILED (strlen FAILED)) = some (1, 0) ∧
    tally (0, 0) (nn_ws_check_result case_num UNIMP (strlen UNIMP)) = some (1, 0) ∧
    nn_ws_check_result case_num OK (strlen OK) = some 0 ∧
    nn_ws_check_result case_num NON (strlen NON) = some 0 ∧
    nn_ws_check_result case_num INFO (strlen INFO) = some 0 := by
  refine ⟨?_, ?_, ?_, ?_, ?_, ?_, ?_⟩ <;> rfl

/-! ## `strncmp` and the branches of `nn_ws_check_result` -/

theorem strncmp_succ (s1 s2 : List Nat) (n : Nat) :
    strncmp s1 s2 (n + 1) =
      if s1.headD 0 ≠ s2.headD 0 then (s1.headD 0 : Int) - (s2.headD 0 : Int)
      else if s1.headD 0 = 0 then 0
      else strncmp s1.tail s2.tail n := by
  rw [strncmp]

theorem headD_eq_getD (l : List Nat) : l.headD 0 = l.getD 0 0 := by
  cases l <;> rfl

theorem getD_tail (l : List Nat) (i : Nat) : l.tail.getD i 0 = l.getD (i + 1) 0 := by
  cases l <;> simp

/-- When `strncmp` finds no difference in the first `n` characters it finds none
in the first `m ≤ n`. -/
theorem strncmp_zero_le (n : Nat) : ∀ (a b : List Nat) (m : Nat), strncmp a b n = 0 → m ≤ n →
    strncmp a b m = 0 := by
  induction n with
  | zero =>
    intro a b m _ hm
    have : m = 0 := by omega
    subst this
    rfl
  | succ n ih =>
    intro a b m h hm
    cases m with
    | zero => rfl
    | succ m =>
      rw [strncmp_succ] at h ⊢
      by_cases hd : a.headD 0 ≠ b.headD 0
      · rw [if_pos hd] at h
        exact absurd h (by omega)
      · rw [if_neg hd] at h ⊢
        by_cases hz : a.headD 0 = 0
        · rw [if_pos hz]
        · rw [if_neg hz] at h ⊢
          exact ih a.tail b.tail m h (by omega)

/-- Against a string with no NUL among its first `n` characters, `strncmp` is 0
exactly when the first `n` characters agree. -/
theorem strncmp_eq_zero_iff (n : Nat) : ∀ (a b : List Nat), (∀ j < n, b.getD j 0 ≠ 0) →
    (strncmp a b n = 0 ↔ ∀ i < n, a.getD i 0 = b.getD i 0) := by
  induction n with
  | zero =>
    intro a b _
    constructor
    · intro _ i hi
      omega
    · intro _
      rfl
  | succ n ih =>
    intro a b hb
    have hb0 : b.headD 0 ≠ 0 := by
      rw [headD_eq_getD]
      exact hb 0 (by omega)
    have hbt : ∀ j < n, b.tail.getD j 0 ≠ 0 := by
      intro j hj
      rw [getD_tail]
      exact hb (j + 1) (by omega)
    rw [strncmp_succ]
    by_cases hd : a.headD 0 ≠ b.headD 0
    · rw [if_pos hd]
      constructor
      · intro h
        exact absurd h (by omega)
      · intro h
        have := h 0 (by omega)
        rw [← headD_eq_getD, ← headD_eq_getD] at this
        exact absurd this hd
    · rw [if_neg hd]
      simp only [ne_eq, not_not] at hd
      have hz : a.headD 0 ≠ 0 := by
        rw [hd]
        exact hb0
      rw [if_neg hz, ih a.tail b.tail hbt]
      constructor
      · intro h i hi
        cases i with
        | zero =>
          rw [← headD_eq_getD, ← headD_eq_getD]
          exact hd
        | succ i =>
          have := h i (by omega)
          rwa [getD_tail, getD_tail] at this
      · intro h i hi
        rw [getD_tail, getD_tail]
        exact h (i + 1) (by omega)

theorem nn_ws_check_result_branch (case_num : Int) (result : List Nat) (len : Nat) :
    nn_ws_check_result case_num result len = branchValue (checkBranch result len) := by
  unfold nn_ws_check_result checkBranch
  split_ifs <;> rfl

theorem strncmp_ne_zero_of_le (a b : List Nat) (n m : Nat) (h : strncmp a b n ≠ 0)
    (hnm : n ≤ m) : strncmp a b m ≠ 0 :=
  fun hm => h (strncmp_zero_le m a b n hm hnm)

/-- C11: `nn_ws_check_result` treats a zero `strncmp` result as a mismatch. For
every `result` and `len`: when the first `len` characters of `result` differ
from `OK` the first branch is taken and 0 is returned, no later comparison
having a say; so `FAILED` and `UNIMPLEMENTED`, passed with any length of at
least 15 (their own lengths included), are reported as 0 by the first branch.
When `result` agrees with `OK` the first branch is not taken and the comparison
with `NON-STRICT` decides next; the `OK` response itself is reported as 0 by
that second branch. -/
theorem check_result_zero_is_mismatch (case_num : Int) (result : List Nat) (len : Nat) :
    (strncmp result OK len ≠ 0 →
      checkBranch result len = 1 ∧ nn_ws_check_result case_num result len = some 0) ∧
    (strncmp result OK len = 0 →
      checkBranch result len ≠ 1 ∧
      (strncmp result NON len ≠ 0 →
        checkBranch result len = 2 ∧ nn_ws_check_result case_num result len = some 0) ∧
      (strncmp result NON len = 0 → checkBranch result len ≠ 2)) ∧
    (15 ≤ len →
      (checkBranch FAILED len = 1 ∧ nn_ws_check_result case_num FAILED len = some 0) ∧
      (checkBranch UNIMP len = 1 ∧ nn_ws_check_result case_num UNIMP len = some 0)) ∧
    (strncmp OK OK (strlen OK) = 0 ∧ checkBranch OK (strlen OK) = 2 ∧
      nn_ws_check_result case_num OK (strlen OK) = some 0) := by
  have first : ∀ r : List Nat, ∀ l : Nat, strncmp r OK l ≠ 0 →
      checkBranch r l = 1 ∧ nn_ws_check_result case_num r l = some 0 := by
    intro r l h
    have hb : checkBranch r l = 1 := by
      unfold checkBranch
      rw [if_pos h]
    exact ⟨hb, by rw [nn_ws_check_result_branch, hb]; rfl⟩
  refine ⟨first result len, ?_, ?_, ?_⟩
  · intro h
    have hnot : ¬ strncmp result OK len ≠ 0 := fun hne => hne h
    refine ⟨?_, ?_, ?_⟩
    · unfold checkBranch
      rw [if_neg hnot]
      split_ifs <;> decide
    · intro hn
      have hb : checkBranch result len = 2 := by
        unfold checkBranch
        rw [if_neg hnot, if_pos hn]
      exact ⟨hb, by rw [nn_ws_check_result_branch, hb]; rfl⟩
    · intro hn
      have hnot2 : ¬ strncmp result NON len ≠ 0 := fun hne => hne hn
      unfold checkBranch
      rw [if_neg hnot, if_neg hnot2]
      split_ifs <;> decide
  · intro hlen
    exact ⟨first FAILED len (strncmp_ne_zero_of_le FAILED OK 15 len (by decide) hlen),
      first UNIMP len (strncmp_ne_zero_of_le UNIMP OK 15 len (by decide) hlen)⟩
  · exact ⟨by decide, by decide, rfl⟩

/-- Witness of C11: the `FAILED` response with its length 22 is reported as 0 by
the first branch, and the `OK` response with its length 18 by the second. -/
theorem check_result_zero_is_mismatch_witness :
    (checkBranch FAILED 22 = 1 ∧ nn_ws_check_result 1 FAILED 22 = some 0) ∧
    (checkBranch OK 18 = 2 ∧ nn_ws_check_result 1 OK 18 = some 0) :=
  ⟨(check_result_zero_is_mismatch 1 FAILED 22).1 (by decide),
   ((check_result_zero_is_mismatch 1 OK 18).2.1 (by decide)).2.1 (by decide)⟩

/-! ## The case count -/

theorem wrapInt_id (x : Int) (h1 : -2147483648 ≤ x) (h2 : x < 2147483648) : wrapInt x = x := by
  unfold wrapInt
  omega

theorem digitsOf_snoc (pre : List Nat) (b : Nat) :
    Nat.ofDigits 10 (digitsOf (pre ++ [b])) = (b - 48) + 10 * Nat.ofDigits 10 (digitsOf pre) := by
  unfold digitsOf
  rw [List.map_append, List.reverse_append]
  simp [Nat.ofDigits_cons]

theorem digitsOf_lt (l : List Nat) (h : ∀ b ∈ l, 48 ≤ b ∧ b ≤ 57) :
    Nat.ofDigits 10 (digitsOf l) < 10 ^ l.length := by
  have hl : ∀ x ∈ digitsOf l, x < 10 := by
    intro x hx
    unfold digitsOf at hx
    rw [List.mem_reverse, List.mem_map] at hx
    obtain ⟨b, hb, e⟩ := hx
    have := h b hb
    omega
  have := Nat.ofDigits_lt_base_pow_length (by decide : 1 < 10) hl
  simpa [digitsOf] using this

theorem caseCountLoop_digits (tail : List Nat) : ∀ (rest pre : List Nat),
    (∀ b ∈ pre, 48 ≤ b ∧ b ≤ 57) → (∀ b ∈ rest, 48 ≤ b ∧ b ≤ 57) →
    pre.length + rest.length ≤ 9 →
    caseCountLoop (pre ++ rest ++ tail) rest.length pre.length
        ((Nat.ofDigits 10 (digitsOf pre) : Nat) : Int) =
      some ((Nat.ofDigits 10 (digitsOf (pre ++ rest)) : Nat) : Int) := by
  intro rest
  induction rest with
  | nil =>
    intro pre _ _ _
    simp [caseCountLoop]
  | cons b rest ih =>
    intro pre hpre hrest hlen
    simp only [List.length_cons] at hlen
    have hb : 48 ≤ b ∧ b ≤ 57 := hrest b (by simp)
    have hget : (pre ++ b :: rest ++ tail).getD pre.length 0 = b := by
      rw [List.append_assoc, List.getD_append_right _ _ _ _ (le_refl _)]
      simp
    have hlt := digitsOf_lt pre hpre
    have hpow : 10 ^ pre.length ≤ 10 ^ 8 := Nat.pow_le_pow_right (by decide) (by omega)
    have hc : Nat.ofDigits 10 (digitsOf pre) < 100000000 := by
      have : (10 : Nat) ^ 8 = 100000000 := by norm_num
      omega
    have hstep : wrapInt (wrapInt (((Nat.ofDigits 10 (digitsOf pre) : Nat) : Int) * 10) +
        ((b : Int) - 48)) = ((Nat.ofDigits 10 (digitsOf (pre ++ [b])) : Nat) : Int) := by
      have h1 : wrapInt (((Nat.ofDigits 10 (digitsOf pre) : Nat) : Int) * 10) =
          ((Nat.ofDigits 10 (digitsOf pre) : Nat) : Int) * 10 :=
        wrapInt_id _ (by omega) (by omega)
      rw [digitsOf_snoc, h1, wrapInt_id _ (by omega) (by omega)]
      push_cast
      omega
    have hpre' : ∀ x ∈ pre ++ [b], 48 ≤ x ∧ x ≤ 57 := by
      intro x hx
      rcases List.mem_append.1 hx with h | h
      · exact hpre x h
      · simp only [List.mem_singleton] at h
        rw [h]
        exact hb
    have hrest' : ∀ x ∈ rest, 48 ≤ x ∧ x ≤ 57 := fun x hx => hrest x (by simp [hx])
    have := ih (pre ++ [b]) hpre' hrest' (by simp only [List.length_append, List.length_singleton]; omega)
    simp only [List.length_cons, caseCountLoop, hget, hb, and_self, if_true, hstep]
    simpa [List.append_assoc] using this

theorem caseCountLoop_nondigit (tail : List Nat) : ∀ (rest pre : List Nat) (cases : Int),
    (∃ b ∈ rest, ¬ (48 ≤ b ∧ b ≤ 57)) →
    caseCountLoop (pre ++ rest ++ tail) rest.length pre.length cases = none := by
  intro rest
  induction rest with
  | nil =>
    intro pre cases h
    obtain ⟨b, hb, _⟩ := h
    simp at hb
  | cons x rest ih =>
    intro pre cases h
    have hget : (pre ++ x :: rest ++ tail).getD pre.length 0 = x := by
      rw [List.append_assoc, List.getD_append_right _ _ _ _ (le_refl _)]
      simp
    by_cases hx : 48 ≤ x ∧ x ≤ 57
    · have hrest : ∃ b ∈ rest, ¬ (48 ≤ b ∧ b ≤ 57) := by
        obtain ⟨b, hb, hnd⟩ := h
        rcases List.mem_cons.1 hb with e | e
        · rw [e] at hnd
          exact absurd hx hnd
        · exact ⟨b, e, hnd⟩
      have := ih (pre ++ [x]) (wrapInt (wrapInt (cases * 10) + ((x : Int) - 48))) hrest
      simp only [List.length_cons, caseCountLoop, hget, hx, and_self, if_true]
      simpa [List.append_assoc] using this
    · simp only [List.length_cons, caseCountLoop, hget, hx, if_false]

/-- C12: the case-count parser of `main`. For a received buffer of 1 to 4 bytes,
all ASCII digits, the loop ends with `cases` equal to the number the digits
denote in base 10; after each iteration `cases` is the number denoted by the
digits read so far, at most 9999, so no `int` overflows; with a Text message
`main` obtains that count. For a buffer of length 0 or more than 4, or with a
byte that is not a digit, an assertion fails and there is no count. -/
theorem case_count_value (recv_buf : List Nat) :
    ((1 ≤ recv_buf.length ∧ recv_buf.length ≤ 4 ∧ ∀ b ∈ recv_buf, 48 ≤ b ∧ b ≤ 57) →
      (∀ j ≤ recv_buf.length,
        caseCountLoop recv_buf j 0 0 =
          some ((Nat.ofDigits 10 (digitsOf (recv_buf.take j)) : Nat) : Int) ∧
        Nat.ofDigits 10 (digitsOf (recv_buf.take j)) ≤ 9999) ∧
      mainCaseCount (recv_buf.length : Int) NN_WS_MSG_TYPE_TEXT recv_buf =
        some ((Nat.ofDigits 10 (digitsOf recv_buf) : Nat) : Int) ∧
      Nat.ofDigits 10 (digitsOf recv_buf) ≤ 9999) ∧
    (∀ ws_msg_type : Nat,
      (recv_buf.length = 0 ∨ 4 < recv_buf.length ∨ ∃ b ∈ recv_buf, ¬ (48 ≤ b ∧ b ≤ 57)) →
      mainCaseCount (recv_buf.length : Int) ws_msg_type recv_buf = none) := by
  constructor
  · rintro ⟨h1, h4, hd⟩
    have hj : ∀ j ≤ recv_buf.length,
        caseCountLoop recv_buf j 0 0 =
          some ((Nat.ofDigits 10 (digitsOf (recv_buf.take j)) : Nat) : Int) ∧
        Nat.ofDigits 10 (digitsOf (recv_buf.take j)) ≤ 9999 := by
      intro j hjle
      have hlen : (recv_buf.take j).length = j := by
        rw [List.length_take]
        omega
      have hdt : ∀ b ∈ recv_buf.take j, 48 ≤ b ∧ b ≤ 57 :=
        fun b hb => hd b (List.mem_of_mem_take hb)
      have h := caseCountLoop_digits (recv_buf.drop j) (recv_buf.take j) []
        (by simp) hdt (by simp only [List.length_nil]; omega)
      simp only [List.nil_append, List.take_append_drop, hlen, List.length_nil] at h
      have h0 : ((Nat.ofDigits 10 (digitsOf []) : Nat) : Int) = 0 := by
        simp [digitsOf]
      rw [h0] at h
      refine ⟨h, ?_⟩
      have hlt := digitsOf_lt (recv_buf.take j) hdt
      rw [hlen] at hlt
      have hpow : 10 ^ j ≤ 10 ^ 4 := Nat.pow_le_pow_right (by decide) (by omega)
      have : (10 : Nat) ^ 4 = 10000 := by norm_num
      omega
    have hfull := hj recv_buf.length (le_refl _)
    rw [List.take_length] at hfull
    refine ⟨hj, ?_, hfull.2⟩
    unfold mainCaseCount
    have hrc : (1 : Int) ≤ (recv_buf.length : Int) ∧ (recv_buf.length : Int) ≤ 4 := by
      constructor <;> omega
    rw [if_pos hrc, if_pos rfl, Int.toNat_natCast]
    exact hfull.1
  · intro ty h
    unfold mainCaseCount
    rcases h with h | h | h
    · have : ¬ ((1 : Int) ≤ (recv_buf.length : Int) ∧ (recv_buf.length : Int) ≤ 4) := by omega
      rw [if_neg this]
    · have : ¬ ((1 : Int) ≤ (recv_buf.length : Int) ∧ (recv_buf.length : Int) ≤ 4) := by omega
      rw [if_neg this]
    · split_ifs
      · rw [Int.toNat_natCast]
        have := caseCountLoop_nondigit [] recv_buf [] 0 h
        simpa using this
      · rfl
      · rfl

/-- Witness of C12: the buffers `517` and `0042` give 517 and 42; `5a` and
`12345` give no count. -/
theorem case_count_value_witness :
    mainCaseCount 3 NN_WS_MSG_TYPE_TEXT (bytesOf "517") = some 517 ∧
    mainCaseCount 4 NN_WS_MSG_TYPE_TEXT (bytesOf "0042") = some 42 ∧
    mainCaseCount 2 NN_WS_MSG_TYPE_TEXT (bytesOf "5a") = none ∧
    mainCaseCount 5 NN_WS_MSG_TYPE_TEXT (bytesOf "12345") = none :=
  ⟨((case_count_value (bytesOf "517")).1 (by decide)).2.1,
   ((case_count_value (bytesOf "0042")).1 (by decide)).2.1,
   (case_count_value (bytesOf "5a")).2 NN_WS_MSG_TYPE_TEXT
     (Or.inr (Or.inr ⟨97, by decide, by decide⟩)),
   (case_count_value (bytesOf "12345")).2 NN_WS_MSG_TYPE_TEXT (Or.inr (Or.inl (by decide)))⟩

/-! ## `nn_ws_check_result` never reports a failure -/

/-- Each of the five responses starts with the common prefix of 14 characters
and has no NUL among its first 15 characters. -/
theorem responses_share_start (X : List Nat)
    (hX : X = OK ∨ X = NON ∨ X = INFO ∨ X = UNIMP ∨ X = FAILED) :
    (∀ j < 14, X.getD j 0 = behaviorPrefix.getD j 0) ∧ (∀ j < 15, X.getD j 0 ≠ 0) := by
  rcases hX with h | h | h | h | h <;> subst h <;> decide

/-- With `len ≤ 14`, `strncmp` against any of the five responses is 0 exactly
when the first `len` characters are those of the common prefix. -/
theorem strncmp_response_short (X : List Nat)
    (hX : X = OK ∨ X = NON ∨ X = INFO ∨ X = UNIMP ∨ X = FAILED) (result : List Nat) (len : Nat)
    (hlen : len ≤ 14) :
    strncmp result X len = 0 ↔ ∀ i < len, result.getD i 0 = behaviorPrefix.getD i 0 := by
  obtain ⟨hp, hz⟩ := responses_share_start X hX
  rw [strncmp_eq_zero_iff len result X (fun j hj => hz j (by omega))]
  constructor
  · intro h i hi
    rw [h i hi, hp i (by omega)]
  · intro h i hi
    rw [h i hi, hp i (by omega)]

/-- With `len ≥ 15`, a result that agrees with `OK` differs from `NON`. -/
theorem strncmp_ok_non (result : List Nat) (len : Nat) (hlen : 15 ≤ len)
    (h : strncmp result OK len = 0) : strncmp result NON len ≠ 0 := by
  intro hn
  have h1 := strncmp_zero_le len result OK 15 h hlen
  have h2 := strncmp_zero_le len result NON 15 hn hlen
  rw [strncmp_eq_zero_iff 15 result OK (responses_share_start OK (Or.inl rfl)).2] at h1
  rw [strncmp_eq_zero_iff 15 result NON (responses_share_start NON (Or.inr (Or.inl rfl))).2] at h2
  have e1 := h1 14 (by decide)
  have e2 := h2 14 (by decide)
  rw [e1] at e2
  exact absurd e2 (by decide)

/-- Agreement of the first `n` characters, read as in C, is equality of the
first `n` list elements when the second string has no NUL there. -/
theorem getD_agree_iff_take (n : Nat) : ∀ (a p : List Nat), n ≤ p.length → (∀ x ∈ p, x ≠ 0) →
    ((∀ i < n, a.getD i 0 = p.getD i 0) ↔ a.take n = p.take n) := by
  induction n with
  | zero =>
    intro a p _ _
    simp
  | succ n ih =>
    intro a p hlen hnz
    cases p with
    | nil => simp at hlen
    | cons y p =>
      simp only [List.length_cons] at hlen
      have hy : y ≠ 0 := hnz y (by simp)
      have hp : ∀ x ∈ p, x ≠ 0 := fun x hx => hnz x (by simp [hx])
      cases a with
      | nil =>
        constructor
        · intro h
          have := h 0 (by omega)
          simp only [List.getD_nil, List.getD_cons_zero] at this
          exact absurd this.symm hy
        · intro h
          simp at h
      | cons x a =>
        have IH := ih a p (by omega) hp
        constructor
        · intro h
          have h0 := h 0 (by omega)
          simp only [List.getD_cons_zero] at h0
          have hrest : ∀ i < n, a.getD i 0 = p.getD i 0 := by
            intro i hi
            have := h (i + 1) (by omega)
            simpa only [List.getD_cons_succ] using this
          rw [List.take_succ_cons, List.take_succ_cons, h0, IH.1 hrest]
        · intro h i hi
          rw [List.take_succ_cons, List.take_succ_cons] at h
          simp only [List.cons.injEq] at h
          cases i with
          | zero => simpa only [List.getD_cons_zero] using h.1
          | succ i =>
            simp only [List.getD_cons_succ]
            exact IH.2 h.2 i (by omega)

theorem check_result_long (case_num : Int) (result : List Nat) (len : Nat) (hlen : 15 ≤ len) :
    nn_ws_check_result case_num result len = some 0 := by
  unfold nn_ws_check_result
  by_cases h : strncmp result OK len ≠ 0
  · rw [if_pos h]
  · rw [if_neg h, if_pos (strncmp_ok_non result len hlen (not_not.1 h))]

theorem check_result_short (case_num : Int) (result : List Nat) (len : Nat) (hlen : len ≤ 14) :
    ((∀ i < len, result.getD i 0 = behaviorPrefix.getD i 0) →
      nn_ws_check_result case_num result len = none) ∧
    (¬ (∀ i < len, result.getD i 0 = behaviorPrefix.getD i 0) →
      nn_ws_check_result case_num result len = some 0) := by
  have h1 := strncmp_response_short OK (Or.inl rfl) result len hlen
  have h2 := strncmp_response_short NON (Or.inr (Or.inl rfl)) result len hlen
  have h3 := strncmp_response_short INFO (Or.inr (Or.inr (Or.inl rfl))) result len hlen
  have h4 := strncmp_response_short UNIMP (Or.inr (Or.inr (Or.inr (Or.inl rfl)))) result len hlen
  have h5 := strncmp_response_short FAILED (Or.inr (Or.inr (Or.inr (Or.inr rfl)))) result len hlen
  unfold nn_ws_check_result
  constructor
  · intro hq
    rw [if_neg (not_not.2 (h1.2 hq)), if_neg (not_not.2 (h2.2 hq)), if_neg (not_not.2 (h3.2 hq)),
      if_neg (not_not.2 (h4.2 hq)), if_neg (not_not.2 (h5.2 hq))]
  · intro hq
    rw [if_pos (fun h => hq (h1.1 h))]

theorem behaviorPrefix_ne_zero : ∀ x ∈ behaviorPrefix, x ≠ 0 := by
  decide

theorem check_result_none_iff (case_num : Int) (result : List Nat) (len : Nat) :
    nn_ws_check_result case_num result len = none ↔
      len ≤ 14 ∧ result.take len = behaviorPrefix.take len := by
  have hplen : behaviorPrefix.length = 14 := by decide
  by_cases hl : len ≤ 14
  · rw [← getD_agree_iff_take len result behaviorPrefix (by omega) behaviorPrefix_ne_zero]
    by_cases hq : ∀ i < len, result.getD i 0 = behaviorPrefix.getD i 0
    · exact ⟨fun _ => ⟨hl, hq⟩, fun _ => (check_result_short case_num result len hl).1 hq⟩
    · have hv := (check_result_short case_num result len hl).2 hq
      rw [hv]
      exact ⟨fun h => absurd h (by simp), fun h => absurd h.2 hq⟩
  · have hv := check_result_long case_num result len (by omega)
    rw [hv]
    exact ⟨fun h => absurd h (by simp), fun h => absurd h.1 hl⟩

theorem check_result_zero_of_not_none (case_num : Int) (result : List Nat) (len : Nat)
    (h : ¬ (len ≤ 14 ∧ result.take len = behaviorPrefix.take len)) :
    nn_ws_check_result case_num result len = some 0 := by
  have hplen : behaviorPrefix.length = 14 := by decide
  by_cases hl : len ≤ 14
  · refine (check_result_short case_num result len hl).2 ?_
    intro hq
    rw [getD_agree_iff_take len result behaviorPrefix (by omega) behaviorPrefix_ne_zero] at hq
    exact h ⟨hl, hq⟩
  · exact check_result_long case_num result len (by omega)

theorem runCases_counts (runs : List CaseRun) :
    ∀ (i : Int) (passes failures : Nat),
      (runCases runs i (passes, failures) = some (passes + runs.length, failures) ↔
        ∀ r ∈ runs, ∃ rc : Int, r.recv = some (rc, NN_WS_MSG_TYPE_TEXT) ∧ 0 < rc ∧
          ¬ (rc.toNat ≤ 14 ∧ r.recv_buf.take rc.toNat = behaviorPrefix.take rc.toNat) ∧
          r.freemsg = 0 ∧ r.disconnect = true) ∧
      (runCases runs i (passes, failures) = none ↔
        ¬ ∀ r ∈ runs, ∃ rc : Int, r.recv = some (rc, NN_WS_MSG_TYPE_TEXT) ∧ 0 < rc ∧
          ¬ (rc.toNat ≤ 14 ∧ r.recv_buf.take rc.toNat = behaviorPrefix.take rc.toNat) ∧
          r.freemsg = 0 ∧ r.disconnect = true) := by
  induction runs with
  | nil =>
    intro i passes failures
    refine ⟨⟨fun _ r hr => absurd hr (List.not_mem_nil r), fun _ => rfl⟩,
      ⟨fun h => absurd h (by simp [runCases]), fun h => absurd ?_ h⟩⟩
    intro r hr
    exact absurd hr (List.not_mem_nil r)
  | cons r rs ih =>
    intro i passes failures
    by_cases hP : ∃ rc : Int, r.recv = some (rc, NN_WS_MSG_TYPE_TEXT) ∧ 0 < rc ∧
        ¬ (rc.toNat ≤ 14 ∧ r.recv_buf.take rc.toNat = behaviorPrefix.take rc.toNat) ∧
        r.freemsg = 0 ∧ r.disconnect = true
    · obtain ⟨rc, hrecv, hpos, hbad, hfree, hdis⟩ := hP
      have hv := check_result_zero_of_not_none i r.recv_buf rc.toNat hbad
      have hrun : runCases (r :: rs) i (passes, failures) =
          runCases rs (i + 1) (passes + 1, failures) := by
        simp only [runCases, hrecv, hpos, not_true_eq_false, if_false, ne_eq, hv, tally, if_true,
          hfree, hdis, Bool.true_eq_false]
      have ih' := ih (i + 1) (passes + 1) failures
      have e : passes + 1 + rs.length = passes + (rs.length + 1) := by omega
      rw [e] at ih'
      rw [hrun, List.length_cons, List.forall_mem_cons]
      refine ⟨⟨fun h => ⟨⟨rc, hrecv, hpos, hbad, hfree, hdis⟩, ih'.1.1 h⟩, fun h => ih'.1.2 h.2⟩,
        ⟨fun h hall => ih'.2.1 h hall.2,
          fun h => ih'.2.2 (fun hall => h ⟨⟨rc, hrecv, hpos, hbad, hfree, hdis⟩, hall⟩)⟩⟩
    · have hnP : ¬ ∀ r' ∈ r :: rs, ∃ rc : Int, r'.recv = some (rc, NN_WS_MSG_TYPE_TEXT) ∧
          0 < rc ∧
          ¬ (rc.toNat ≤ 14 ∧ r'.recv_buf.take rc.toNat = behaviorPrefix.take rc.toNat) ∧
          r'.freemsg = 0 ∧ r'.disconnect = true :=
        fun h => hP (h r (List.mem_cons_self _ _))
      have hrun : runCases (r :: rs) i (passes, failures) = none := by
        cases hrecv : r.recv with
        | none => simp only [runCases, hrecv]
        | some p =>
          obtain ⟨rc, ty⟩ := p
          by_cases hpos : 0 < rc
          · by_cases hty : ty = NN_WS_MSG_TYPE_TEXT
            · subst hty
              by_cases hbad : rc.toNat ≤ 14 ∧
                  r.recv_buf.take rc.toNat = behaviorPrefix.take rc.toNat
              · have hv := (check_result_none_iff i r.recv_buf rc.toNat).2 hbad
                simp only [runCases, hrecv, hpos, not_true_eq_false, if_false, ne_eq, hv, tally]
              · have hv := check_result_zero_of_not_none i r.recv_buf rc.toNat hbad
                by_cases hfree : r.freemsg = 0
                · have hdis : r.disconnect = false := by
                    cases hd : r.disconnect with
                    | false => rfl
                    | true => exact absurd ⟨rc, hrecv, hpos, hbad, hfree, hd⟩ hP
                  simp only [runCases, hrecv, hpos, not_true_eq_false, if_false, ne_eq, hv, tally,
                    if_true, hfree, hdis]
                · simp only [runCases, hrecv, hpos, not_true_eq_false, if_false, ne_eq, hv, tally,
                    if_true, hfree, not_false_eq_true]
            · simp only [runCases, hrecv, hpos, not_true_eq_false, if_false, ne_eq, hty,
                not_false_eq_true, if_true]
          · simp only [runCases, hrecv, hpos, not_false_eq_true, if_true]
      rw [hrun]
      exact ⟨⟨fun h => absurd h (by simp), fun h => absurd h hnP⟩, ⟨fun _ => hnP, fun _ => rfl⟩⟩

/-- C13: `nn_ws_check_result` never returns -1. For every `result` and `len` the
call returns 0 or reaches `nn_assert (0)`; it returns 0 whenever `len ≥ 15`; it
reaches the assertion exactly when `len ≤ 14` and the first `len` characters of
`result` are the first `len` characters of the common prefix `{"behavior": "`
(for `len = 0` always). Consequently the case loop of `main`, when no assertion
stops it, leaves `failures` as it was and has added the number of cases run to
`passes`; it runs to its end exactly when in every case `nn_ws_recv` returned
`rc > 0` with a Text message, the first `rc` characters received are not such a
start of the common prefix, `nn_freemsg` returned 0 and `nn_autobahn_disconnect`
returned. -/
theorem check_result_never_minus_one (case_num : Int) (result : List Nat) (len : Nat) :
    nn_ws_check_result case_num result len ≠ some (-1) ∧
    (nn_ws_check_result case_num result len = some 0 ∨
      nn_ws_check_result case_num result len = none) ∧
    (15 ≤ len → nn_ws_check_result case_num result len = some 0) ∧
    (nn_ws_check_result case_num result len = none ↔
      len ≤ 14 ∧ result.take len = behaviorPrefix.take len) ∧
    (nn_ws_check_result case_num result len = none ↔
      len ≤ 14 ∧ ∀ i < len, result.getD i 0 = behaviorPrefix.getD i 0) ∧
    (len = 0 → nn_ws_check_result case_num result len = none) ∧
    (∀ (runs : List CaseRun) (i : Int) (passes failures : Nat),
      (runCases runs i (passes, failures) = none ∨
        runCases runs i (passes, failures) = some (passes + runs.length, failures)) ∧
      (runCases runs i (passes, failures) = some (passes + runs.length, failures) ↔
        ∀ r ∈ runs, ∃ rc : Int, r.recv = some (rc, NN_WS_MSG_TYPE_TEXT) ∧ 0 < rc ∧
          ¬ (rc.toNat ≤ 14 ∧ r.recv_buf.take rc.toNat = behaviorPrefix.take rc.toNat) ∧
          r.freemsg = 0 ∧ r.disconnect = true)) := by
  have hplen : behaviorPrefix.length = 14 := by decide
  have hassert : nn_ws_check_result case_num result len = none ↔
      len ≤ 14 ∧ ∀ i < len, result.getD i 0 = behaviorPrefix.getD i 0 := by
    by_cases hl : len ≤ 14
    · by_cases hq : ∀ i < len, result.getD i 0 = behaviorPrefix.getD i 0
      · exact ⟨fun _ => ⟨hl, hq⟩, fun _ => (check_result_short case_num result len hl).1 hq⟩
      · have hv := (check_result_short case_num result len hl).2 hq
        rw [hv]
        exact ⟨fun h => absurd h (by simp), fun h => absurd h.2 hq⟩
    · have hv := check_result_long case_num result len (by omega)
      rw [hv]
      exact ⟨fun h => absurd h (by simp), fun h => absurd h.1 hl⟩
  have hdich : nn_ws_check_result case_num result len = some 0 ∨
      nn_ws_check_result case_num result len = none := by
    by_cases hl : len ≤ 14
    · by_cases hq : ∀ i < len, result.getD i 0 = behaviorPrefix.getD i 0
      · exact Or.inr ((check_result_short case_num result len hl).1 hq)
      · exact Or.inl ((check_result_short case_num result len hl).2 hq)
    · exact Or.inl (check_result_long case_num result len (by omega))
  refine ⟨?_, hdich, check_result_long case_num result len, ?_, hassert, ?_, ?_⟩
  · rcases hdich with h | h <;> rw [h] <;> simp
  · rw [hassert]
    constructor
    · rintro ⟨hl, hq⟩
      exact ⟨hl, (getD_agree_iff_take len result behaviorPrefix (by omega)
        behaviorPrefix_ne_zero).1 hq⟩
    · rintro ⟨hl, hq⟩
      exact ⟨hl, (getD_agree_iff_take len result behaviorPrefix (by omega)
        behaviorPrefix_ne_zero).2 hq⟩
  · intro h0
    rw [hassert, h0]
    exact ⟨by omega, fun i hi => absurd hi (by omega)⟩
  · intro runs i passes failures
    have h := runCases_counts runs i passes failures
    refine ⟨?_, h.1⟩
    by_cases hall : ∀ r ∈ runs, ∃ rc : Int, r.recv = some (rc, NN_WS_MSG_TYPE_TEXT) ∧ 0 < rc ∧
        ¬ (rc.toNat ≤ 14 ∧ r.recv_buf.take rc.toNat = behaviorPrefix.take rc.toNat) ∧
        r.freemsg = 0 ∧ r.disconnect = true
    · exact Or.inr (h.1.2 hall)
    · exact Or.inl (h.2.2 hall)

/-- Witness of C13: the common prefix with `len = 14` reaches the assertion, the
`FAILED` response with `len = 22` returns 0, and a run of four cases with the
verdicts `OK`, `FAILED`, `UNIMPLEMENTED`, `NON-STRICT`, each received as a Text
message, ends with 4 passes and 0 failures. -/
theorem check_result_never_minus_one_witness :
    nn_ws_check_result 1 behaviorPrefix 14 = none ∧
    nn_ws_check_result 1 FAILED 22 = some 0 ∧
    runCases
      [{ recv := some (18, NN_WS_MSG_TYPE_TEXT), recv_buf := OK, freemsg := 0,
         disconnect := true },
       { recv := some (22, NN_WS_MSG_TYPE_TEXT), recv_buf := FAILED, freemsg := 0,
         disconnect := true },
       { recv := some (29, NN_WS_MSG_TYPE_TEXT), recv_buf := UNIMP, freemsg := 0,
         disconnect := true },
       { recv := some (26, NN_WS_MSG_TYPE_TEXT), recv_buf := NON, freemsg := 0,
         disconnect := true }] 1 (0, 0) = some (4, 0) :=
  ⟨(check_result_never_minus_one 1 behaviorPrefix 14).2.2.2.1.2 ⟨by decide, by decide⟩,
   (check_result_never_minus_one 1 FAILED 22).2.2.1 (by decide),
   ((check_result_never_minus_one 1 [] 0).2.2.2.2.2.2
      [{ recv := some (18, NN_WS_MSG_TYPE_TEXT), recv_buf := OK, freemsg := 0,
         disconnect := true },
       { recv := some (22, NN_WS_MSG_TYPE_TEXT), recv_buf := FAILED, freemsg := 0,
         disconnect := true },
       { recv := some (29, NN_WS_MSG_TYPE_TEXT), recv_buf := UNIMP, freemsg := 0,
         disconnect := true },
       { recv := some (26, NN_WS_MSG_TYPE_TEXT), recv_buf := NON, freemsg := 0,
         disconnect := true }] 1 0 0).2.2
     (List.forall_mem_cons.2 ⟨⟨18, rfl, by decide, by decide, rfl, rfl⟩,
      List.forall_mem_cons.2 ⟨⟨22, rfl, by decide, by decide, rfl, rfl⟩,
      List.forall_mem_cons.2 ⟨⟨29, rfl, by decide, by decide, rfl, rfl⟩,
      List.forall_mem_cons.2 ⟨⟨26, rfl, by decide, by decide, rfl, rfl⟩,
        fun r hr => absurd hr (List.not_mem_nil r)⟩⟩⟩⟩)⟩

/-! ## `sp_epbase_init` guards the copy of the address -/

theorem strcpy_parts (dst src : List Nat) :
    (strcpy dst src).take (strlen src + 1) = cstr src ++ [0] ∧
    (strcpy dst src).drop (strlen src + 1) = dst.drop (strlen src + 1) ∧
    (strlen src + 1 ≤ dst.length → (strcpy dst src).length = dst.length) := by
  have e : strcpy dst src = (cstr src ++ [0]) ++ dst.drop (strlen src + 1) := by
    unfold strcpy
    simp
  have hl : (cstr src ++ [0]).length = strlen src + 1 := by
    unfold strlen
    simp
  refine ⟨?_, ?_, ?_⟩
  · rw [e, ← hl, List.take_left]
  · rw [e, ← hl, List.drop_left, hl]
  · intro h
    rw [e, List.length_append, hl, List.length_drop]
    omega

theorem sp_epbase_init_of_run (SP_SOCKADDR_MAX : Nat) (self : sp_epbase) (vfptr : Nat)
    (addr : List Nat) (hint : Nat) :
    sp_epbase_init SP_SOCKADDR_MAX self vfptr addr hint =
      match sp_epbase_init_run SP_SOCKADDR_MAX self vfptr addr hint with
      | .ok s => some s
      | .error _ => none := by
  unfold sp_epbase_init sp_epbase_init_run
  by_cases h : strlen addr ≤ SP_SOCKADDR_MAX
  · simp only [h, if_true]
  · simp only [h, if_false]

/-- C14: `sp_epbase_init` guards its copy of the address. The assertion
`sp_assert (strlen (addr) <= SP_SOCKADDR_MAX)` passes exactly when `addr` has at
most `SP_SOCKADDR_MAX` characters. Then, with `self->addr` an array of
`SP_SOCKADDR_MAX + 1` bytes, the function returns with `self->vfptr = vfptr` and
`self->sock = hint`, the first `strlen (addr) + 1 ≤ SP_SOCKADDR_MAX + 1` bytes
of `self->addr` are the characters of `addr` and the terminator, and the bytes
after them are as before, the array keeping its size. For a longer `addr` the
assertion fails with `self->addr` as it was on entry. -/
theorem epbase_init_guard (SP_SOCKADDR_MAX : Nat) (self : sp_epbase) (vfptr : Nat)
    (addr : List Nat) (hint : Nat) :
    ((∃ s, sp_epbase_init_run SP_SOCKADDR_MAX self vfptr addr hint = .ok s) ↔
      (cstr addr).length ≤ SP_SOCKADDR_MAX) ∧
    (0 ∉ addr →
      ((∃ s, sp_epbase_init_run SP_SOCKADDR_MAX self vfptr addr hint = .ok s) ↔
        addr.length ≤ SP_SOCKADDR_MAX)) ∧
    ((∃ s, sp_epbase_init SP_SOCKADDR_MAX self vfptr addr hint = some s) ↔
      (cstr addr).length ≤ SP_SOCKADDR_MAX) ∧
    ((cstr addr).length ≤ SP_SOCKADDR_MAX → self.addr.length = SP_SOCKADDR_MAX + 1 →
      ∃ s, sp_epbase_init_run SP_SOCKADDR_MAX self vfptr addr hint = .ok s ∧
        sp_epbase_init SP_SOCKADDR_MAX self vfptr addr hint = some s ∧
        s.vfptr = vfptr ∧ s.sock = hint ∧
        strlen addr + 1 ≤ SP_SOCKADDR_MAX + 1 ∧
        s.addr.take (strlen addr + 1) = cstr addr ++ [0] ∧
        s.addr.drop (strlen addr + 1) = self.addr.drop (strlen addr + 1) ∧
        s.addr.length = SP_SOCKADDR_MAX + 1) ∧
    (SP_SOCKADDR_MAX < (cstr addr).length →
      sp_epbase_init_run SP_SOCKADDR_MAX self vfptr addr hint =
        .error { vfptr := vfptr, sock := hint, addr := self.addr } ∧
      sp_epbase_init SP_SOCKADDR_MAX self vfptr addr hint = none) := by
  have hpass : (cstr addr).length ≤ SP_SOCKADDR_MAX →
      sp_epbase_init_run SP_SOCKADDR_MAX self vfptr addr hint =
        .ok { vfptr := vfptr, sock := hint, addr := strcpy self.addr addr } := by
    intro h
    have h' : strlen addr ≤ SP_SOCKADDR_MAX := h
    unfold sp_epbase_init_run
    simp only [h', if_true]
  have hfail : SP_SOCKADDR_MAX < (cstr addr).length →
      sp_epbase_init_run SP_SOCKADDR_MAX self vfptr addr hint =
        .error { vfptr := vfptr, sock := hint, addr := self.addr } := by
    intro h
    have h' : ¬ strlen addr ≤ SP_SOCKADDR_MAX := by
      unfold strlen
      omega
    unfold sp_epbase_init_run
    simp only [h', if_false]
  have hiff : (∃ s, sp_epbase_init_run SP_SOCKADDR_MAX self vfptr addr hint = .ok s) ↔
      (cstr addr).length ≤ SP_SOCKADDR_MAX := by
    constructor
    · rintro ⟨s, hs⟩
      by_contra hgt
      rw [hfail (by omega)] at hs
      exact absurd hs (by simp)
    · intro h
      exact ⟨_, hpass h⟩
  refine ⟨hiff, ?_, ?_, ?_, ?_⟩
  · intro h0
    rw [hiff, cstr_of_no_nul addr h0]
  · rw [sp_epbase_init_of_run]
    constructor
    · rintro ⟨s, hs⟩
      by_contra hgt
      rw [hfail (by omega)] at hs
      exact absurd hs (by simp)
    · intro h
      rw [hpass h]
      exact ⟨_, rfl⟩
  · intro h harr
    have hparts := strcpy_parts self.addr addr
    refine ⟨_, hpass h, ?_, rfl, rfl, ?_, hparts.1, hparts.2.1, ?_⟩
    · rw [sp_epbase_init_of_run, hpass h]
    · unfold strlen
      omega
    · have : strlen addr + 1 ≤ self.addr.length := by
        unfold strlen
        omega
      simp only
      rw [hparts.2.2 this, harr]
  · intro h
    refine ⟨hfail h, ?_⟩
    rw [sp_epbase_init_of_run, hfail h]

/-- Witness of C14: an array of 5 bytes (`SP_SOCKADDR_MAX = 4`): `ab` is copied
with its terminator and the last two bytes stay; `abcde` fails the assertion
with the array untouched. -/
theorem epbase_init_guard_witness :
    sp_epbase_init 4 { vfptr := 0, sock := 0, addr := [9, 9, 9, 9, 9] } 1 (bytesOf "ab") 2 =
      some { vfptr := 1, sock := 2, addr := [97, 98, 0, 9, 9] } ∧
    strlen (bytesOf "ab") + 1 ≤ 4 + 1 ∧
    [97, 98, 0, 9, 9].take (strlen (bytesOf "ab") + 1) = cstr (bytesOf "ab") ++ [0] ∧
    [97, 98, 0, 9, 9].drop (strlen (bytesOf "ab") + 1) =
      [9, 9, 9, 9, 9].drop (strlen (bytesOf "ab") + 1) ∧
    sp_epbase_init_run 4 { vfptr := 0, sock := 0, addr := [9, 9, 9, 9, 9] } 1
        (bytesOf "abcde") 2 =
      .error { vfptr := 1, sock := 2, addr := [9, 9, 9, 9, 9] } := by
  obtain ⟨s, _, hinit, _, _, hle, htake, hdrop, _⟩ :=
    (epbase_init_guard 4 { vfptr := 0, sock := 0, addr := [9, 9, 9, 9, 9] } 1 (bytesOf "ab")
      2).2.2.2.1 (by decide) (by decide)
  have e : sp_epbase_init 4 { vfptr := 0, sock := 0, addr := [9, 9, 9, 9, 9] } 1
      (bytesOf "ab") 2 = some { vfptr := 1, sock := 2, addr := [97, 98, 0, 9, 9] } := by
    decide
  rw [e] at hinit
  simp only [Option.some.injEq] at hinit
  subst hinit
  exact ⟨e, hle, htake, hdrop,
    ((epbase_init_guard 4 { vfptr := 0, sock := 0, addr := [9, 9, 9, 9, 9] } 1
      (bytesOf "abcde") 2).2.2.2.2 (by decide)).1⟩

end Nanomsg
